import Mathlib

/-! Tailsitter control code (`ArduPlane/tailsitter.cpp`)

A shallow embedding of the tailsitter part of `QuadPlane`: the regime
predicates, the output mixer `tailsitter_output`, the two transition
completion predicates and the pilot input remapping.

Conventions of the embedding

* `float` and `double` values are rationals. Every operation whose result can
  need rounding goes through a `FloatArith`, which rounds a real result to
  `float` and to `double`: `ieee_arith` is IEEE 754 binary32 and binary64 with
  round-to-nearest-even, `exact_arith` rounds nothing. Conversions of a float
  to an integer type truncate toward zero.
* `int32_t`, `int16_t` and `int8_t` quantities are `Int`; the `uint32_t`
  millisecond clock is a `Nat` and its subtraction wraps modulo `2^32`.
* Collaborators whose code is outside `tailsitter.cpp` are either fields of
  the state that hold the value they return (`in_vtol_mode`, `is_flying`,
  `fly_inverted`, ...) or, for `motors_output` and the C library `powf`,
  parameters of the mixer.
-/

/-! ## Data model -/

/-- Modelled from the spec: the transition-state enum is declared outside
`tailsitter.cpp`. It has at least `TRANSITION_ANGLE_WAIT_FW` and
`TRANSITION_ANGLE_WAIT_VTOL`, plus other states this code does not interpret. -/
inductive TransitionState where
  | TRANSITION_ANGLE_WAIT_FW
  | TRANSITION_ANGLE_WAIT_VTOL
  | TRANSITION_OTHER (tag : Nat)
  deriving DecidableEq, Repr

/-- Modelled from the spec: the named scaled-output channels addressed by
`SRV_Channels::get_output_scaled` and `SRV_Channels::set_output_scaled`; the
functions `tailsitter.cpp` does not name are `k_other n`. -/
inductive Aux_servo_function_t where
  | k_aileron
  | k_elevator
  | k_rudder
  | k_throttle
  | k_throttleLeft
  | k_throttleRight
  | k_tiltMotorLeft
  | k_tiltMotorRight
  | k_other (n : Nat)
  deriving DecidableEq, Repr

/-- The `tailsitter` parameter group of `QuadPlane`. The gains and the
exponent are float parameters, the others 8-bit integer parameters. -/
structure TailsitterParams where
  vectored_forward_gain : ℚ
  vectored_hover_gain : ℚ
  vectored_hover_power : ℚ
  transition_angle : Int
  input_mask : Int
  input_mask_chan : Int
  input_type : Int

/-- The anti-windup flags `motors->limit`. -/
structure MotorsLimit where
  roll_pitch : Bool
  yaw : Bool
  deriving DecidableEq, Repr

/-- An attitude source: roll and pitch in centidegrees (`int32_t`). -/
structure AHRS where
  roll_sensor : Int
  pitch_sensor : Int
  deriving DecidableEq, Repr

/-- A pilot input channel: the stored `control_in` and the value that
`get_control_in_zero_dz()` returns (both `int16_t`). -/
structure RC_Channel where
  control_in : Int
  control_in_zero_dz : Int
  deriving DecidableEq, Repr

/-- The vehicle state that `tailsitter.cpp` reads and writes. -/
structure QuadPlane where
  /-- value of `available()` -/
  available : Bool
  frame_class : Int
  /-- value of `in_vtol_mode()` -/
  in_vtol_mode : Bool
  transition_state : TransitionState
  transition_start_ms : Nat
  throttle_wait : Bool
  /-- value of `is_flying()` -/
  is_flying : Bool
  /-- value of `hal.util->get_soft_armed()` -/
  soft_armed : Bool
  /-- value of `plane.fly_inverted()` -/
  fly_inverted : Bool
  /-- value of `AP_HAL::millis()` -/
  millis : Nat
  tailsitter : TailsitterParams
  /-- scaled value of every output channel -/
  srv : Aux_servo_function_t → ℚ
  /-- value of `motors->get_throttle_hover()` -/
  throttle_hover : ℚ
  limit : MotorsLimit
  /-- integrator of `pid_accel_z` -/
  pid_accel_z_integrator : ℚ
  /-- integrator of `plane.pitchController` -/
  pitchController_I : ℚ
  /-- integrator of `plane.rollController` -/
  rollController_I : ℚ
  nav_pitch_cd : Int
  ahrs_view : AHRS
  ahrs : AHRS
  /-- raw value of every RC input, `hal.rcin->read(ch)` -/
  rcin : Nat → Nat
  channel_roll : RC_Channel
  channel_pitch : RC_Channel
  channel_throttle : RC_Channel
  channel_rudder : RC_Channel

/-! ## Constants and library helpers -/

/-- The tailsitter frame class; the head comment of the file gives its value,
`Q_FRAME_CLASS=10`. -/
def MOTOR_FRAME_TAILSITTER : Int := 10

/-- Modelled from the spec: bit of the aileron in `input_mask`, a bitset of
aileron, elevator, throttle and rudder in that order. -/
def TAILSITTER_MASK_AILERON : Int := 1

/-- Modelled from the spec: bit of the elevator in `input_mask`. -/
def TAILSITTER_MASK_ELEVATOR : Int := 2

/-- Modelled from the spec: bit of the throttle in `input_mask`. -/
def TAILSITTER_MASK_THROTTLE : Int := 4

/-- Modelled from the spec: bit of the rudder in `input_mask`. -/
def TAILSITTER_MASK_RUDDER : Int := 8

/-- Modelled from the spec: `input_type` is an enum of NORMAL and PLANE-FRAME;
this is the value of the second. -/
def TAILSITTER_INPUT_PLANE : Int := 1

/-- Conversion of a float to an integer type: truncation toward zero. -/
def truncQ (x : ℚ) : Int := if 0 ≤ x then ⌊x⌋ else ⌈x⌉

/-- Conversion of a float to `uint8_t`. -/
def uint8_of_float (x : ℚ) : Nat := (truncQ x % 256).toNat

/-- Conversion of an `int` to `int16_t`. -/
def int16_of_int (x : Int) : Int := (x + 32768) % 65536 - 32768

/-- Subtraction of two `uint32_t`. -/
def uint32_sub (a b : Nat) : Nat := (a + 2 ^ 32 - b % 2 ^ 32) % 2 ^ 32

/-- The C library `labs`. -/
def labs (x : Int) : Int := Int.natAbs x

/-- The C library `fabsf`. -/
def fabsf (x : ℚ) : ℚ := |x|

/-- Modelled from the spec: `constrain_float` clamps its first argument to
the range given by the other two. -/
def constrain_float (amt low high : ℚ) : ℚ :=
  if amt < low then low else if high < amt then high else amt

/-- How the target rounds a real result to `float` and to `double`. -/
structure FloatArith where
  to_float : ℚ → ℚ
  to_double : ℚ → ℚ

/-- Rounding to the nearest integer, ties to the even one. -/
def round_half_even (y : ℚ) : Int :=
  if y - ⌊y⌋ < 1 / 2 then ⌊y⌋
  else if 1 / 2 < y - ⌊y⌋ then ⌊y⌋ + 1
  else if ⌊y⌋ % 2 = 0 then ⌊y⌋ else ⌊y⌋ + 1

/-- Rounding to the nearest binary floating-point number with `prec`
significant bits and least normal exponent `emin`, ties to even, with gradual
underflow. There is no largest finite number: results beyond the range of the
format are rounded onto the same grid rather than to an infinity. -/
def round_to_precision (prec : Nat) (emin : Int) (x : ℚ) : ℚ :=
  if x = 0 then 0
  else
    let ulp : ℚ := 2 ^ (max (Int.log 2 |x|) emin - ((prec : Int) - 1))
    round_half_even (x / ulp) * ulp

/-- Rounding to IEEE 754 binary32, the `float` of the target. -/
def binary32 (x : ℚ) : ℚ := round_to_precision 24 (-126) x

/-- Rounding to IEEE 754 binary64, the `double` of the target. -/
def binary64 (x : ℚ) : ℚ := round_to_precision 53 (-1022) x

/-- IEEE 754 arithmetic: `float` is binary32 and `double` is binary64. -/
def ieee_arith : FloatArith := { to_float := binary32, to_double := binary64 }

/-- Arithmetic over exact rationals: nothing is rounded. -/
def exact_arith : FloatArith := { to_float := fun x => x, to_double := fun x => x }

/-- The properties of a binary floating-point arithmetic that the theorems on
the power law use, each one a property of IEEE 754 binary32 and binary64
inside their finite range: small integers are `float` numbers, a rounded
value and its magnitude are `float` numbers, rounding keeps the sign and does
not cross a power of 2, and inside the normal range a doubling is exact. -/
structure FloatArith.Binary (fa : FloatArith) : Prop where
  float_int : ∀ n : Int, |n| < 2 ^ 24 → fa.to_float (n : ℚ) = n
  float_nonneg : ∀ y : ℚ, 0 ≤ y → 0 ≤ fa.to_float y
  float_nonpos : ∀ y : ℚ, y ≤ 0 → fa.to_float y ≤ 0
  double_nonneg : ∀ y : ℚ, 0 ≤ y → 0 ≤ fa.to_double y
  double_nonpos : ∀ y : ℚ, y ≤ 0 → fa.to_double y ≤ 0
  float_idem : ∀ y : ℚ, fa.to_float (fa.to_float y) = fa.to_float y
  float_abs : ∀ y : ℚ, fa.to_float |fa.to_float y| = |fa.to_float y|
  float_abs_ge : ∀ (y : ℚ) (k : Int), -126 ≤ k → k ≤ 127 → (2 : ℚ) ^ k ≤ |y| →
    (2 : ℚ) ^ k ≤ |fa.to_float y|
  float_abs_le : ∀ (y : ℚ) (k : Int), -126 ≤ k → k ≤ 127 → |y| ≤ (2 : ℚ) ^ k →
    |fa.to_float y| ≤ (2 : ℚ) ^ k
  double_abs_ge : ∀ (y : ℚ) (k : Int), -1022 ≤ k → k ≤ 1023 → (2 : ℚ) ^ k ≤ |y| →
    (2 : ℚ) ^ k ≤ |fa.to_double y|
  double_abs_le : ∀ (y : ℚ) (k : Int), -1022 ≤ k → k ≤ 1023 → |y| ≤ (2 : ℚ) ^ k →
    |fa.to_double y| ≤ (2 : ℚ) ^ k
  float_two_mul : ∀ y : ℚ, (2 : ℚ) ^ (-126 : Int) ≤ |y| → |y| ≤ (2 : ℚ) ^ (126 : Int) →
    fa.to_float (2 * y) = 2 * fa.to_float y
  double_two_mul : ∀ y : ℚ, (2 : ℚ) ^ (-1022 : Int) ≤ |y| → |y| ≤ (2 : ℚ) ^ (1022 : Int) →
    fa.to_double (2 * y) = 2 * fa.to_double y

/-- An exact `powf` for the states evaluated below: at every integral
exponent it is the integer power (`powf_integral x 0 = 1` for every `x`, as
in C). -/
def powf_integral (x y : ℚ) : ℚ := x ^ ⌊y⌋

/-- A `float`-valued `powf` for the states evaluated below: at every integral
exponent the integer power rounded to binary32. -/
def powf_binary32 (x y : ℚ) : ℚ := binary32 (x ^ ⌊y⌋)

namespace QuadPlane

/-- `SRV_Channels::get_output_scaled`. -/
def get_output_scaled (s : QuadPlane) (f : Aux_servo_function_t) : ℚ := s.srv f

/-- `SRV_Channels::set_output_scaled`: only channel `f` changes. -/
def set_output_scaled (s : QuadPlane) (f : Aux_servo_function_t) (v : ℚ) : QuadPlane :=
  { s with srv := fun g => if g = f then v else s.srv g }

/-! ## Regime classifier -/

/-- Lines 24-27: return true when flying a tailsitter. -/
def is_tailsitter (s : QuadPlane) : Bool :=
  s.available && (s.frame_class == MOTOR_FRAME_TAILSITTER)

/-- Lines 32-45: check if we are flying as a tailsitter. -/
def tailsitter_active (s : QuadPlane) : Bool :=
  if !s.is_tailsitter then false
  else if s.in_vtol_mode then true
  else if s.transition_state = TransitionState.TRANSITION_ANGLE_WAIT_FW then true
  else false

/-- Lines 193-196: a tailsitter transitioning to VTOL flight. -/
def in_tailsitter_vtol_transition (s : QuadPlane) : Bool :=
  s.is_tailsitter && s.in_vtol_mode &&
    (s.transition_state == TransitionState.TRANSITION_ANGLE_WAIT_VTOL)

/-! ## Output mixer -/

/-- Lines 56-67: the tilt outputs in fixed wing flight. The sum and the
product of lines 60-61 are `float` operations. -/
def forward_vectoring (fa : FloatArith) (s : QuadPlane) : QuadPlane :=
  if s.tailsitter.vectored_forward_gain > 0 then
    let aileron := s.get_output_scaled .k_aileron
    let elevator := s.get_output_scaled .k_elevator
    let tilt_left :=
      fa.to_float (fa.to_float (elevator + aileron) * s.tailsitter.vectored_forward_gain)
    let tilt_right :=
      fa.to_float (fa.to_float (elevator - aileron) * s.tailsitter.vectored_forward_gain)
    (s.set_output_scaled .k_tiltMotorLeft tilt_left).set_output_scaled .k_tiltMotorRight tilt_right
  else
    (s.set_output_scaled .k_tiltMotorLeft 0).set_output_scaled .k_tiltMotorRight 0

/-- Line 68: the condition of the hover throttle block. -/
def hover_preset_due (s : QuadPlane) : Bool :=
  s.in_tailsitter_vtol_transition && !s.throttle_wait && s.is_flying && s.soft_armed

/-- Line 74: `uint8_t throttle = motors->get_throttle_hover() * 100`: the
`float` product, converted to `uint8_t`. -/
def hover_throttle (fa : FloatArith) (s : QuadPlane) : Nat :=
  uint8_of_float (fa.to_float (s.throttle_hover * 100))

/-- Lines 74-79: throttle outputs and altitude integrator set to the hover
throttle, rudder zeroed. -/
def hover_throttle_preset (fa : FloatArith) (s : QuadPlane) : QuadPlane :=
  let throttle := s.hover_throttle fa
  let s1 := s.set_output_scaled .k_throttle throttle
  let s2 := s1.set_output_scaled .k_throttleLeft throttle
  let s3 := s2.set_output_scaled .k_throttleRight throttle
  let s4 := s3.set_output_scaled .k_rudder 0
  { s4 with pid_accel_z_integrator := ((throttle * 10 : Nat) : ℚ) }

/-- Lines 85-86: `reset_I()` on the pitch and the roll controller (modelled
from the spec: a reset zeroes the integrator). -/
def reset_I (s : QuadPlane) : QuadPlane :=
  { s with pitchController_I := 0, rollController_I := 0 }

/-- Line 97: `int32_t pitch_error_cd = (nav_pitch_cd - pitch_sensor) * 0.5`.
Half of a 32-bit integer is a `double`, so this product is not rounded. -/
def pitch_error_cd (s : QuadPlane) : Int :=
  truncQ (((s.nav_pitch_cd - s.ahrs_view.pitch_sensor : Int) : ℚ) * (1 / 2))

/-- Line 98: `float extra_pitch = constrain_float(pitch_error_cd, -4500, 4500)
/ 4500.0`: the pitch error converted to `float`, clamped, divided by the
`double` 4500.0 and stored in a `float`. -/
def extra_pitch (fa : FloatArith) (s : QuadPlane) : ℚ :=
  fa.to_float
    (fa.to_double (constrain_float (fa.to_float (s.pitch_error_cd : ℚ)) (-4500) 4500 / 4500))

/-- Lines 99-100: the extra elevator of the power law, two `float`
products. -/
def extra_elevator (fa : FloatArith) (powf : ℚ → ℚ → ℚ) (s : QuadPlane) : ℚ :=
  let extra_pitch := s.extra_pitch fa
  let extra_sign : ℚ := if extra_pitch > 0 then 1 else -1
  fa.to_float
    (fa.to_float (extra_sign * powf (fabsf extra_pitch) s.tailsitter.vectored_hover_power) *
      4500)

/-- Line 101: left tilt in VTOL modes, a `float` sum of the extra elevator
and a `float` product. -/
def hover_tilt_left (fa : FloatArith) (powf : ℚ → ℚ → ℚ) (s : QuadPlane) : ℚ :=
  fa.to_float
    (s.extra_elevator fa powf +
      fa.to_float
        (fa.to_float (s.get_output_scaled .k_elevator + s.get_output_scaled .k_aileron) *
          s.tailsitter.vectored_hover_gain))

/-- Line 102: right tilt in VTOL modes. -/
def hover_tilt_right (fa : FloatArith) (powf : ℚ → ℚ → ℚ) (s : QuadPlane) : ℚ :=
  fa.to_float
    (s.extra_elevator fa powf +
      fa.to_float
        (fa.to_float (s.get_output_scaled .k_elevator - s.get_output_scaled .k_aileron) *
          s.tailsitter.vectored_hover_gain))

/-- Lines 88-110: thrust vectoring in VTOL modes. -/
def hover_vectoring (fa : FloatArith) (powf : ℚ → ℚ → ℚ) (s : QuadPlane) : QuadPlane :=
  if s.tailsitter.vectored_hover_gain > 0 then
    let tilt_left := s.hover_tilt_left fa powf
    let tilt_right := s.hover_tilt_right fa powf
    let s1 :=
      if fabsf tilt_left ≥ 4500 ∨ fabsf tilt_right ≥ 4500 then
        { s with limit := { roll_pitch := true, yaw := true } }
      else s
    (s1.set_output_scaled .k_tiltMotorLeft tilt_left).set_output_scaled .k_tiltMotorRight tilt_right
  else s

/-- Lines 113-115: the condition of the prop-hang override. -/
def input_mask_triggered (s : QuadPlane) : Bool :=
  decide (s.tailsitter.input_mask_chan > 0) &&
  decide (s.tailsitter.input_mask > 0) &&
  decide (s.rcin (s.tailsitter.input_mask_chan - 1).toNat > 1700)

/-- One of the four blocks of lines 117-128: when `input_mask` has the bit
`mask_bit`, output `f` is set to the pilot stick value `stick`. -/
def pass_through (s : QuadPlane) (mask_bit : Int) (f : Aux_servo_function_t)
    (stick : QuadPlane → Int) : QuadPlane :=
  if Int.land s.tailsitter.input_mask mask_bit ≠ 0 then
    s.set_output_scaled f (stick s)
  else s

/-- Lines 113-129: pilot sticks passed through to the outputs the mask names. -/
def input_mask_override (s : QuadPlane) : QuadPlane :=
  if s.input_mask_triggered then
    let s1 := s.pass_through TAILSITTER_MASK_AILERON .k_aileron
      (fun t => t.channel_roll.control_in_zero_dz)
    let s2 := s1.pass_through TAILSITTER_MASK_ELEVATOR .k_elevator
      (fun t => t.channel_pitch.control_in_zero_dz)
    let s3 := s2.pass_through TAILSITTER_MASK_THROTTLE .k_throttle
      (fun t => t.channel_throttle.control_in_zero_dz)
    s3.pass_through TAILSITTER_MASK_RUDDER .k_rudder
      (fun t => t.channel_rudder.control_in_zero_dz)
  else s

/-- Lines 50-130: run output for tailsitters. `motors_output` and `powf` are
the collaborators whose code is elsewhere, `fa` is the arithmetic of the
target. -/
def tailsitter_output (fa : FloatArith) (motors_output : QuadPlane → QuadPlane)
    (powf : ℚ → ℚ → ℚ) (s : QuadPlane) : QuadPlane :=
  if !s.is_tailsitter then s
  else if !s.tailsitter_active || s.in_tailsitter_vtol_transition then
    let s1 := s.forward_vectoring fa
    if s1.hover_preset_due then
      s1.hover_throttle_preset fa
    else s1
  else
    let s1 := motors_output s
    let s2 := s1.reset_I
    let s3 := s2.hover_vectoring fa powf
    s3.input_mask_override

/-! ## Transition completion -/

/-- Lines 148 and 167: `AP_HAL::millis() - transition_start_ms`. -/
def elapsed_ms (s : QuadPlane) : Nat := uint32_sub s.millis s.transition_start_ms

/-- Lines 142-145: the roll of the view attitude, folded at 90 degrees. -/
def folded_roll_cd (s : QuadPlane) : Int :=
  let roll_cd := labs s.ahrs_view.roll_sensor
  if roll_cd > 9000 then 18000 - roll_cd else roll_cd

/-- Lines 136-153: enough of a transition is completed to switch to fixed
wing control. -/
def tailsitter_transition_fw_complete (s : QuadPlane) : Bool :=
  if s.fly_inverted then true
  else
    let roll_cd := s.folded_roll_cd
    if labs s.ahrs_view.pitch_sensor > s.tailsitter.transition_angle * 100 ∨
        roll_cd > s.tailsitter.transition_angle * 100 ∨
        s.elapsed_ms > 2000 then true
    else false

/-- Lines 159-172: enough of a transition is completed to switch to VTOL
control. -/
def tailsitter_transition_vtol_complete (s : QuadPlane) : Bool :=
  if s.fly_inverted then true
  else if labs s.ahrs.pitch_sensor > s.tailsitter.transition_angle * 100 ∨
      labs s.ahrs.roll_sensor > s.tailsitter.transition_angle * 100 ∨
      s.elapsed_ms > 2000 then true
  else false

/-! ## Input remapping -/

/-- Lines 175-188: handle different tailsitter input types. -/
def tailsitter_check_input (s : QuadPlane) : QuadPlane :=
  if s.tailsitter_active && (s.tailsitter.input_type == TAILSITTER_INPUT_PLANE) then
    let roll_in := s.channel_roll.control_in
    let yaw_in := s.channel_rudder.control_in
    let s1 := { s with channel_roll := { s.channel_roll with control_in := yaw_in } }
    { s1 with channel_rudder := { s1.channel_rudder with control_in := int16_of_int (-roll_in) } }
  else s

end QuadPlane

/-! ## Concrete states -/

/-- A tailsitter in steady fixed wing flight, everything else zero. -/
def fwState : QuadPlane where
  available := true
  frame_class := 10
  in_vtol_mode := false
  transition_state := .TRANSITION_OTHER 0
  transition_start_ms := 0
  throttle_wait := false
  is_flying := true
  soft_armed := true
  fly_inverted := false
  millis := 0
  tailsitter :=
    { vectored_forward_gain := 0, vectored_hover_gain := 0, vectored_hover_power := 1,
      transition_angle := 45, input_mask := 0, input_mask_chan := 0, input_type := 0 }
  srv := fun _ => 0
  throttle_hover := 0
  limit := { roll_pitch := false, yaw := false }
  pid_accel_z_integrator := 0
  pitchController_I := 0
  rollController_I := 0
  nav_pitch_cd := 0
  ahrs_view := { roll_sensor := 0, pitch_sensor := 0 }
  ahrs := { roll_sensor := 0, pitch_sensor := 0 }
  rcin := fun _ => 1500
  channel_roll := { control_in := 0, control_in_zero_dz := 0 }
  channel_pitch := { control_in := 0, control_in_zero_dz := 0 }
  channel_throttle := { control_in := 0, control_in_zero_dz := 0 }
  channel_rudder := { control_in := 0, control_in_zero_dz := 0 }

/-- A vehicle whose frame class is not the tailsitter class, with both
vectoring gains set and the prop-hang override switched on. -/
def quadState : QuadPlane :=
  { fwState with
    frame_class := 1
    in_vtol_mode := true
    tailsitter :=
      { vectored_forward_gain := 1, vectored_hover_gain := 1, vectored_hover_power := 1,
        transition_angle := 45, input_mask := 15, input_mask_chan := 7, input_type := 1 }
    srv := fun _ => 300
    rcin := fun _ => 1900
    pitchController_I := 5
    rollController_I := 7
    pid_accel_z_integrator := 11 }

/-- A `motors_output` that raises both limit flags and writes every output. -/
def motors_output_saturating (s : QuadPlane) : QuadPlane :=
  { s with limit := { roll_pitch := true, yaw := true }, srv := fun _ => 1000 }

/-- A tailsitter in steady fixed wing flight with aileron 300, elevator
-200 and tilt outputs left at 1234 by an earlier cycle. -/
def fwDeflected : QuadPlane :=
  { fwState with
    srv := fun f =>
      match f with
      | .k_aileron => 300
      | .k_elevator => -200
      | .k_tiltMotorLeft => 1234
      | .k_tiltMotorRight => 1234
      | _ => 0 }

/-- The state `fwDeflected` with forward gain 1/2. -/
def fwVectored : QuadPlane :=
  { fwDeflected with
    tailsitter := { fwDeflected.tailsitter with vectored_forward_gain := 1 / 2 } }

/-- A tailsitter hovering in a VTOL mode with hover gain 1/10, exponent 1 and
no pitch error. -/
def hoverLevel : QuadPlane :=
  { fwState with
    in_vtol_mode := true
    tailsitter := { fwState.tailsitter with vectored_hover_gain := 1 / 10 } }

/-- A tailsitter in steady fixed wing flight with forward gain 100 and
aileron 300. -/
def fwSaturated : QuadPlane :=
  { fwDeflected with
    tailsitter := { fwDeflected.tailsitter with vectored_forward_gain := 100 } }

/-- A tailsitter hovering in a VTOL mode with `input_mask` = throttle and
aileron, learning channel 7 at a raw value of 1800, and pilot sticks roll 123,
pitch -55, throttle 40 and rudder 9. -/
def hoverLearning : QuadPlane :=
  { fwState with
    in_vtol_mode := true
    tailsitter := { fwState.tailsitter with input_mask := 5, input_mask_chan := 7 }
    rcin := fun _ => 1800
    channel_roll := { control_in := 0, control_in_zero_dz := 123 }
    channel_pitch := { control_in := 0, control_in_zero_dz := -55 }
    channel_throttle := { control_in := 0, control_in_zero_dz := 40 }
    channel_rudder := { control_in := 0, control_in_zero_dz := 9 } }

/-- The state `hoverLearning` with the learning channel at exactly 1700. -/
def hoverLearningOff : QuadPlane :=
  { hoverLearning with rcin := fun _ => 1700 }

/-- A tailsitter flying inverted at the very start of a transition, level,
with a transition angle of 45 degrees. -/
def fwInverted : QuadPlane :=
  { fwState with fly_inverted := true, transition_start_ms := 5000, millis := 5000 }

/-- A level, non-inverted tailsitter exactly 2000 ms after the start of the
transition, with a transition angle of 45 degrees. -/
def fwAtTimeout : QuadPlane :=
  { fwState with transition_start_ms := 5000, millis := 7000 }

/-- The state `fwAtTimeout` one millisecond later. -/
def fwPastTimeout : QuadPlane :=
  { fwState with transition_start_ms := 5000, millis := 7001 }

/-- A non-inverted tailsitter 1500 ms after the start of a transition with a
view roll of 10000 centidegrees, level pitch and a transition angle of 75
degrees. -/
def fwRolled75 : QuadPlane :=
  { fwState with
    transition_start_ms := 5000
    millis := 6500
    ahrs_view := { roll_sensor := 10000, pitch_sensor := 0 }
    tailsitter := { fwState.tailsitter with transition_angle := 75 } }

/-- The state `fwRolled75` with a transition angle of 85 degrees. -/
def fwRolled85 : QuadPlane :=
  { fwState with
    transition_start_ms := 5000
    millis := 6500
    ahrs_view := { roll_sensor := 10000, pitch_sensor := 0 }
    tailsitter := { fwState.tailsitter with transition_angle := 85 } }

/-- A level, non-inverted tailsitter with a transition angle of 45 degrees
whose transition started 1000 ms before the 32-bit millisecond clock wrapped
and is read 1500 ms after the wrap. -/
def fwClockWrapped : QuadPlane :=
  { fwState with transition_start_ms := 2 ^ 32 - 1000, millis := 1500 }

/-- A non-inverted tailsitter 1500 ms after the start of a transition with a
raw roll of 10000 centidegrees, a level view attitude and a transition angle
of 85 degrees. -/
def vtolRolled85 : QuadPlane :=
  { fwState with
    transition_start_ms := 5000
    millis := 6500
    ahrs := { roll_sensor := 10000, pitch_sensor := 0 }
    tailsitter := { fwState.tailsitter with transition_angle := 85 } }

/-- A non-inverted tailsitter at the start of a transition, transition angle
45 degrees, whose view attitude is pitched 5000 centidegrees while the raw
attitude is level. -/
def viewPitched : QuadPlane :=
  { fwState with ahrs_view := { roll_sensor := 0, pitch_sensor := 5000 } }

/-- The state `viewPitched` with the two attitude sources exchanged. -/
def rawPitched : QuadPlane :=
  { fwState with ahrs := { roll_sensor := 0, pitch_sensor := 5000 } }

/-- An active tailsitter with plane-frame input, pilot roll command 300 and
rudder command -150. -/
def planeInput : QuadPlane :=
  { fwState with
    in_vtol_mode := true
    tailsitter := { fwState.tailsitter with input_type := 1 }
    channel_roll := { control_in := 300, control_in_zero_dz := 0 }
    channel_rudder := { control_in := -150, control_in_zero_dz := 0 } }

/-- The state `planeInput` in steady fixed wing flight. -/
def planeInputInactive : QuadPlane :=
  { planeInput with in_vtol_mode := false }

/-- A tailsitter hovering in a VTOL mode with hover gain 1/10, exponent 1 and
a commanded pitch 3000 centidegrees above the measured pitch. -/
def hoverError1500 : QuadPlane :=
  { fwState with
    in_vtol_mode := true
    nav_pitch_cd := 3000
    tailsitter := { fwState.tailsitter with vectored_hover_gain := 1 / 10 } }

/-- A tailsitter hovering in a VTOL mode with hover gain 1/10, exponent 2 and
a commanded pitch 1800 centidegrees below the measured pitch. -/
def hoverSquareQ : QuadPlane :=
  { fwState with
    in_vtol_mode := true
    nav_pitch_cd := -1800
    tailsitter :=
      { fwState.tailsitter with vectored_hover_gain := 1 / 10, vectored_hover_power := 2 } }

/-- The state `hoverSquareQ` with twice the pitch error. -/
def hoverSquare2Q : QuadPlane :=
  { fwState with
    in_vtol_mode := true
    nav_pitch_cd := -3600
    tailsitter :=
      { fwState.tailsitter with vectored_hover_gain := 1 / 10, vectored_hover_power := 2 } }

/-- A tailsitter hovering in a VTOL mode with hover gain 1/10, exponent 0,
commanded pitch equal to the measured pitch, aileron 300 and elevator -200. -/
def hoverPowerZero : QuadPlane :=
  { fwDeflected with
    in_vtol_mode := true
    nav_pitch_cd := 1200
    ahrs_view := { roll_sensor := 0, pitch_sensor := 1200 }
    tailsitter :=
      { fwState.tailsitter with vectored_hover_gain := 1 / 10, vectored_hover_power := 0 } }

/-- The state `hoverLevel` with wound-up pitch and roll controller
integrators. -/
def hoverWound : QuadPlane :=
  { hoverLevel with pitchController_I := 5, rollController_I := 7 }

/-- The state `fwDeflected` with wound-up pitch and roll controller
integrators. -/
def fwWound : QuadPlane :=
  { fwDeflected with pitchController_I := 5, rollController_I := 7 }

/-- A tailsitter hovering in a VTOL mode with hover gain 0, a commanded pitch
9000 centidegrees above the measured pitch, aileron 300, elevator -200 and
tilt outputs at 1234. -/
def hoverGainZero : QuadPlane :=
  { fwDeflected with in_vtol_mode := true, nav_pitch_cd := 9000 }

/-- A non-inverted tailsitter at the start of a transition whose two attitude
sources both report a roll of 10000 centidegrees and level pitch, with a
transition angle of 85 degrees. -/
def bothRolled85 : QuadPlane :=
  { fwState with
    ahrs_view := { roll_sensor := 10000, pitch_sensor := 0 }
    ahrs := { roll_sensor := 10000, pitch_sensor := 0 }
    tailsitter := { fwState.tailsitter with transition_angle := 85 } }

/-- A non-inverted tailsitter at the start of a transition whose two attitude
sources both report a roll of -5000 centidegrees and level pitch, with a
transition angle of 45 degrees. -/
def bothRolled45 : QuadPlane :=
  { fwState with
    ahrs_view := { roll_sensor := -5000, pitch_sensor := 0 }
    ahrs := { roll_sensor := -5000, pitch_sensor := 0 } }

/-- A tailsitter hovering in a VTOL mode with hover gain 0.9f (the `float`
nearest to 0.9, 7549747/8388608), exponent 1, no pitch error and elevator and
aileron outputs of 2500 each. -/
def hoverSaturating : QuadPlane :=
  { fwState with
    in_vtol_mode := true
    tailsitter := { fwState.tailsitter with vectored_hover_gain := 7549747 / 8388608 }
    srv := fun f =>
      match f with
      | .k_aileron => 2500
      | .k_elevator => 2500
      | _ => 0 }

/-- A tailsitter hovering in a VTOL mode with exponent 1 and a commanded
pitch 14 centidegrees above the measured pitch, a pitch error of 7. -/
def hoverError7 : QuadPlane :=
  { fwState with
    in_vtol_mode := true
    nav_pitch_cd := 14
    tailsitter := { fwState.tailsitter with vectored_hover_gain := 1 / 8 } }

/-- The state `hoverPowerZero` with the hover gain 0.1f (the `float` nearest
to 0.1, 13421773/134217728). -/
def hoverPowerZeroF : QuadPlane :=
  { hoverPowerZero with
    tailsitter :=
      { hoverPowerZero.tailsitter with vectored_hover_gain := 13421773 / 134217728 } }

/-! ## Theorems -/

open QuadPlane

/-! ### Floating-point rounding -/

/-- A rational within 1/2 of an integer rounds to that integer. -/
theorem round_half_even_eq (y : ℚ) (m : Int) (h : |y - m| < 1 / 2) :
    round_half_even y = m := by
  obtain ⟨h1, h2⟩ := abs_lt.mp h
  unfold round_half_even
  by_cases hy : (m : ℚ) ≤ y
  · have hf : ⌊y⌋ = m := by
      rw [Int.floor_eq_iff]
      constructor
      · exact hy
      · linarith
    rw [hf, if_pos h2]
  · have hf : ⌊y⌋ = m - 1 := by
      rw [Int.floor_eq_iff]
      push_cast
      constructor <;> linarith
    have hn : ¬ (y - ((m - 1 : Int) : ℚ) < 1 / 2) := by
      push_cast
      linarith
    have hp : (1 : ℚ) / 2 < y - ((m - 1 : Int) : ℚ) := by
      push_cast
      linarith
    rw [hf, if_neg hn, if_pos hp]
    ring

/-- Rounding stays between the floor and the floor plus one. -/
theorem round_half_even_mem (y : ℚ) :
    round_half_even y = ⌊y⌋ ∨ (round_half_even y = ⌊y⌋ + 1 ∧ (⌊y⌋ : ℚ) < y) := by
  unfold round_half_even
  by_cases h1 : y - ⌊y⌋ < 1 / 2
  · left
    rw [if_pos h1]
  · have hlt : (⌊y⌋ : ℚ) < y := by linarith
    rw [if_neg h1]
    by_cases h2 : 1 / 2 < y - ⌊y⌋
    · right
      rw [if_pos h2]
      exact ⟨rfl, hlt⟩
    · rw [if_neg h2]
      by_cases h3 : ⌊y⌋ % 2 = 0
      · left
        rw [if_pos h3]
      · right
        rw [if_neg h3]
        exact ⟨rfl, hlt⟩

/-- Rounding does not go above an integer that bounds the argument. -/
theorem round_half_even_le (y : ℚ) (n : Int) (h : y ≤ n) : round_half_even y ≤ n := by
  have hf : ⌊y⌋ ≤ n := by
    have : (⌊y⌋ : ℚ) ≤ n := le_trans (Int.floor_le y) h
    exact_mod_cast this
  rcases round_half_even_mem y with h1 | ⟨h1, hlt⟩
  · rw [h1]
    exact hf
  · rw [h1]
    have : ⌊y⌋ < n := by
      have : (⌊y⌋ : ℚ) < n := lt_of_lt_of_le hlt h
      exact_mod_cast this
    omega

/-- Rounding does not go below an integer that bounds the argument. -/
theorem le_round_half_even (y : ℚ) (n : Int) (h : (n : ℚ) ≤ y) : n ≤ round_half_even y := by
  have hf : n ≤ ⌊y⌋ := Int.le_floor.mpr h
  rcases round_half_even_mem y with h1 | ⟨h1, _⟩
  · rw [h1]
    exact hf
  · rw [h1]
    omega

/-- The binary exponent of a positive rational between two powers of 2. -/
theorem int_log_two_eq (x : ℚ) (e : Int) (h1 : (2 : ℚ) ^ e ≤ x) (h2 : x < (2 : ℚ) ^ (e + 1)) :
    Int.log 2 x = e := by
  have hx : 0 < x := lt_of_lt_of_le (by positivity) h1
  have a : e ≤ Int.log 2 x := by
    rw [← Int.zpow_le_iff_le_log (by norm_num) hx]
    simpa using h1
  have b : Int.log 2 x < e + 1 := by
    rw [← Int.lt_zpow_iff_log_lt (by norm_num) hx]
    simpa using h2
  omega

/-- Evaluation of a rounding: with `2^e <= |x| < 2^(e+1)` and `x / ulp` within
1/2 of the integer `m`, the result is `m * ulp`. -/
theorem round_to_precision_eq (prec : Nat) (emin : Int) (x : ℚ) (e m : Int)
    (h1 : (2 : ℚ) ^ e ≤ |x|) (h2 : |x| < (2 : ℚ) ^ (e + 1))
    (hm : |x / (2 : ℚ) ^ (max e emin - ((prec : Int) - 1)) - m| < 1 / 2) :
    round_to_precision prec emin x = m * (2 : ℚ) ^ (max e emin - ((prec : Int) - 1)) := by
  have hx : x ≠ 0 := by
    intro h0
    rw [h0, abs_zero] at h1
    have : (0 : ℚ) < 2 ^ e := by positivity
    linarith
  unfold round_to_precision
  rw [if_neg hx]
  simp only [int_log_two_eq |x| e h1 h2]
  rw [round_half_even_eq _ m hm]

/-- Rounding zero gives zero. -/
theorem round_to_precision_zero (prec : Nat) (emin : Int) :
    round_to_precision prec emin 0 = 0 := by
  simp [round_to_precision]

/-- Integers of magnitude below `2^24` are binary32 numbers. -/
theorem binary32_intCast (n : Int) (h : |n| < 2 ^ 24) : binary32 (n : ℚ) = n := by
  by_cases hn : n = 0
  · rw [hn]
    exact round_to_precision_zero 24 (-126)
  · have hq : (n : ℚ) ≠ 0 := by exact_mod_cast hn
    have hpos : (0 : ℚ) < |(n : ℚ)| := abs_pos.mpr hq
    have h1 : (1 : ℚ) ≤ |(n : ℚ)| := by
      have : (1 : Int) ≤ |n| := Int.one_le_abs hn
      exact_mod_cast this
    have h24 : |(n : ℚ)| < 2 ^ (24 : Int) := by
      have : ((|n| : Int) : ℚ) < ((2 ^ 24 : Int) : ℚ) := by exact_mod_cast h
      have h2 : ((2 ^ 24 : Int) : ℚ) = 2 ^ (24 : Int) := by norm_num
      rw [← h2]
      simpa using this
    have he0 : 0 ≤ Int.log 2 |(n : ℚ)| := by
      rw [← Int.zpow_le_iff_le_log (by norm_num) hpos]
      simpa using h1
    have he1 : Int.log 2 |(n : ℚ)| < 24 := by
      rw [← Int.lt_zpow_iff_log_lt (by norm_num) hpos]
      simpa using h24
    unfold binary32 round_to_precision
    rw [if_neg hq]
    have hmax : max (Int.log 2 |(n : ℚ)|) (-126) = Int.log 2 |(n : ℚ)| := max_eq_left (by omega)
    simp only [hmax]
    set e := Int.log 2 |(n : ℚ)| with he
    have hk : ((23 - e).toNat : Int) = 23 - e := Int.toNat_of_nonneg (by omega)
    have hu : (2 : ℚ) ^ (e - (((24 : Nat) : Int) - 1)) = 1 / 2 ^ (23 - e).toNat := by
      rw [← zpow_natCast, hk]
      have : e - (((24 : Nat) : Int) - 1) = -(23 - e) := by push_cast; ring
      rw [this, zpow_neg]
      simp
    rw [hu]
    have hm : round_half_even ((n : ℚ) / (1 / 2 ^ (23 - e).toNat)) = n * 2 ^ (23 - e).toNat := by
      apply round_half_even_eq
      have : (n : ℚ) / (1 / 2 ^ (23 - e).toNat) - ((n * 2 ^ (23 - e).toNat : Int) : ℚ) = 0 := by
        push_cast
        field_simp
      rw [this]
      norm_num
    rw [hm]
    push_cast
    field_simp

/-- Rounding keeps a nonnegative number nonnegative. -/
theorem round_to_precision_nonneg (prec : Nat) (emin : Int) (x : ℚ) (h : 0 ≤ x) :
    0 ≤ round_to_precision prec emin x := by
  unfold round_to_precision
  by_cases hx : x = 0
  · rw [if_pos hx]
  · rw [if_neg hx]
    have hu : (0 : ℚ) < 2 ^ (max (Int.log 2 |x|) emin - ((prec : Int) - 1)) := by positivity
    have : (0 : Int) ≤ round_half_even
        (x / 2 ^ (max (Int.log 2 |x|) emin - ((prec : Int) - 1))) :=
      le_round_half_even _ 0 (by push_cast; positivity)
    have h2 : (0 : ℚ) ≤ (round_half_even
        (x / 2 ^ (max (Int.log 2 |x|) emin - ((prec : Int) - 1))) : ℚ) := by exact_mod_cast this
    positivity

/-- Rounding keeps a nonpositive number nonpositive. -/
theorem round_to_precision_nonpos (prec : Nat) (emin : Int) (x : ℚ) (h : x ≤ 0) :
    round_to_precision prec emin x ≤ 0 := by
  unfold round_to_precision
  by_cases hx : x = 0
  · rw [if_pos hx]
  · rw [if_neg hx]
    have hu : (0 : ℚ) < 2 ^ (max (Int.log 2 |x|) emin - ((prec : Int) - 1)) := by positivity
    have : round_half_even (x / 2 ^ (max (Int.log 2 |x|) emin - ((prec : Int) - 1))) ≤ 0 :=
      round_half_even_le _ 0 (by
        push_cast
        exact div_nonpos_of_nonpos_of_nonneg h (le_of_lt hu))
    have h2 : (round_half_even
        (x / 2 ^ (max (Int.log 2 |x|) emin - ((prec : Int) - 1))) : ℚ) ≤ 0 := by
      exact_mod_cast this
    exact mul_nonpos_of_nonpos_of_nonneg h2 (le_of_lt hu)

/-- Doubling a nonzero rational raises its binary exponent by one. -/
theorem int_log_two_mul (x : ℚ) (hx : x ≠ 0) :
    Int.log 2 |2 * x| = Int.log 2 |x| + 1 := by
  have hpos : (0 : ℚ) < |x| := abs_pos.mpr hx
  have h1 : (2 : ℚ) ^ (Int.log 2 |x|) ≤ |x| := by
    simpa using Int.zpow_log_le_self (b := 2) (by norm_num) hpos
  have h2 : |x| < (2 : ℚ) ^ (Int.log 2 |x| + 1) := by
    simpa using Int.lt_zpow_succ_log_self (b := 2) (by norm_num) |x|
  apply int_log_two_eq
  · rw [abs_mul, zpow_add_one₀ (by norm_num : (2 : ℚ) ≠ 0)]
    have : |(2 : ℚ)| = 2 := by norm_num
    rw [this]
    linarith
  · rw [abs_mul, zpow_add_one₀ (by norm_num : (2 : ℚ) ≠ 0)]
    have : |(2 : ℚ)| = 2 := by norm_num
    rw [this]
    linarith

/-- Above the subnormal range a doubling is exact. -/
theorem round_to_precision_two_mul (prec : Nat) (emin : Int) (x : ℚ)
    (h : (2 : ℚ) ^ emin ≤ |x|) :
    round_to_precision prec emin (2 * x) = 2 * round_to_precision prec emin x := by
  have hpos : (0 : ℚ) < |x| := lt_of_lt_of_le (by positivity) h
  have hx : x ≠ 0 := abs_pos.mp hpos
  have h2x : 2 * x ≠ 0 := mul_ne_zero (by norm_num) hx
  have he : emin ≤ Int.log 2 |x| := by
    rw [← Int.zpow_le_iff_le_log (by norm_num) hpos]
    simpa using h
  unfold round_to_precision
  rw [if_neg hx, if_neg h2x, int_log_two_mul x hx]
  have m1 : max (Int.log 2 |x|) emin = Int.log 2 |x| := max_eq_left he
  have m2 : max (Int.log 2 |x| + 1) emin = Int.log 2 |x| + 1 := max_eq_left (by omega)
  simp only [m1, m2]
  have hu : (2 : ℚ) ^ (Int.log 2 |x| + 1 - ((prec : Int) - 1)) =
      2 * 2 ^ (Int.log 2 |x| - ((prec : Int) - 1)) := by
    have : Int.log 2 |x| + 1 - ((prec : Int) - 1) = Int.log 2 |x| - ((prec : Int) - 1) + 1 := by
      ring
    rw [this, zpow_add_one₀ (by norm_num : (2 : ℚ) ≠ 0)]
    ring
  rw [hu]
  have hpow : (0 : ℚ) < 2 ^ (Int.log 2 |x| - ((prec : Int) - 1)) := by positivity
  have hd : 2 * x / (2 * 2 ^ (Int.log 2 |x| - ((prec : Int) - 1))) =
      x / 2 ^ (Int.log 2 |x| - ((prec : Int) - 1)) := by
    field_simp
    ring
  rw [hd]
  ring

/-- Rounding does not cross a power of 2 toward zero. -/
theorem le_abs_round_to_precision (prec : Nat) (hprec : 1 ≤ prec) (emin : Int) (x : ℚ)
    (k : Int) (hk : emin ≤ k) (h : (2 : ℚ) ^ k ≤ |x|) :
    (2 : ℚ) ^ k ≤ |round_to_precision prec emin x| := by
  have hpos : (0 : ℚ) < |x| := lt_of_lt_of_le (by positivity) h
  have hx : x ≠ 0 := abs_pos.mp hpos
  have hke : k ≤ Int.log 2 |x| := by
    rw [← Int.zpow_le_iff_le_log (by norm_num) hpos]
    simpa using h
  have hlog : (2 : ℚ) ^ (Int.log 2 |x|) ≤ |x| := by
    simpa using Int.zpow_log_le_self (b := 2) (by norm_num) hpos
  have hmono : (2 : ℚ) ^ k ≤ 2 ^ (Int.log 2 |x|) := zpow_le_zpow_right₀ (by norm_num) hke
  unfold round_to_precision
  rw [if_neg hx]
  have m1 : max (Int.log 2 |x|) emin = Int.log 2 |x| := max_eq_left (by omega)
  simp only [m1]
  set e := Int.log 2 |x| with he
  set u : ℚ := 2 ^ (e - ((prec : Int) - 1)) with hu
  have hupos : 0 < u := by positivity
  have hN : (((2 : Int) ^ (prec - 1) : Int) : ℚ) * u = 2 ^ e := by
    rw [hu]
    push_cast
    rw [← zpow_natCast, ← zpow_add₀ (by norm_num : (2 : ℚ) ≠ 0)]
    congr 1
    have : ((prec - 1 : Nat) : Int) = (prec : Int) - 1 := by omega
    rw [this]
    ring
  rcases lt_or_gt_of_ne hx with hneg | hpos2
  · have hax : |x| = -x := abs_of_neg hneg
    have hle : x / u ≤ ((-(2 : Int) ^ (prec - 1) : Int) : ℚ) := by
      rw [div_le_iff₀ hupos]
      push_cast
      have := hN
      push_cast at this
      linarith
    have hr := round_half_even_le _ _ hle
    have hr2 : (round_half_even (x / u) : ℚ) ≤ ((-(2 : Int) ^ (prec - 1) : Int) : ℚ) := by
      exact_mod_cast hr
    have hv : (round_half_even (x / u) : ℚ) * u ≤ -(2 ^ e) := by
      have := mul_le_mul_of_nonneg_right hr2 (le_of_lt hupos)
      push_cast at this hN
      linarith
    have habs : (2 : ℚ) ^ e ≤ |(round_half_even (x / u) : ℚ) * u| := by
      rw [abs_of_nonpos (by
        have : (0 : ℚ) < 2 ^ e := by positivity
        linarith)]
      linarith
    linarith
  · have hax : |x| = x := abs_of_pos hpos2
    have hle : (((2 : Int) ^ (prec - 1) : Int) : ℚ) ≤ x / u := by
      rw [le_div_iff₀ hupos]
      linarith
    have hr := le_round_half_even _ _ hle
    have hr2 : (((2 : Int) ^ (prec - 1) : Int) : ℚ) ≤ (round_half_even (x / u) : ℚ) := by
      exact_mod_cast hr
    have hv : (2 : ℚ) ^ e ≤ (round_half_even (x / u) : ℚ) * u := by
      have := mul_le_mul_of_nonneg_right hr2 (le_of_lt hupos)
      linarith
    have habs : (2 : ℚ) ^ e ≤ |(round_half_even (x / u) : ℚ) * u| :=
      le_trans hv (le_abs_self _)
    linarith

/-- Rounding does not cross a power of 2 away from zero. -/
theorem abs_round_to_precision_le (prec : Nat) (hprec : 1 ≤ prec) (emin : Int) (x : ℚ)
    (k : Int) (hk : emin ≤ k) (h : |x| ≤ (2 : ℚ) ^ k) :
    |round_to_precision prec emin x| ≤ (2 : ℚ) ^ k := by
  by_cases hx : x = 0
  · rw [hx, round_to_precision_zero, abs_zero]
    positivity
  have hpos : (0 : ℚ) < |x| := abs_pos.mpr hx
  have hlog : (2 : ℚ) ^ (Int.log 2 |x|) ≤ |x| := by
    simpa using Int.zpow_log_le_self (b := 2) (by norm_num) hpos
  have hek : Int.log 2 |x| ≤ k := by
    have h2 : (2 : ℚ) ^ (Int.log 2 |x|) ≤ (2 : ℚ) ^ k := le_trans hlog h
    exact (zpow_le_zpow_iff_right₀ (by norm_num : (1 : ℚ) < 2)).mp h2
  unfold round_to_precision
  rw [if_neg hx]
  set M := max (Int.log 2 |x|) emin with hM
  have hMk : M ≤ k := max_le hek hk
  set u : ℚ := 2 ^ (M - ((prec : Int) - 1)) with hu
  have hupos : 0 < u := by positivity
  have hd : ((k - M + ((prec : Int) - 1)).toNat : Int) = k - M + ((prec : Int) - 1) :=
    Int.toNat_of_nonneg (by omega)
  have hN : (((2 : Int) ^ (k - M + ((prec : Int) - 1)).toNat : Int) : ℚ) * u = 2 ^ k := by
    rw [hu]
    push_cast
    rw [← zpow_natCast, hd, ← zpow_add₀ (by norm_num : (2 : ℚ) ≠ 0)]
    congr 1
    ring
  obtain ⟨hlo, hhi⟩ := abs_le.mp h
  have h1 : x / u ≤ (((2 : Int) ^ (k - M + ((prec : Int) - 1)).toNat : Int) : ℚ) := by
    rw [div_le_iff₀ hupos, hN]
    exact hhi
  have h2 : ((-(2 : Int) ^ (k - M + ((prec : Int) - 1)).toNat : Int) : ℚ) ≤ x / u := by
    rw [le_div_iff₀ hupos]
    have : ((-(2 : Int) ^ (k - M + ((prec : Int) - 1)).toNat : Int) : ℚ) * u = -(2 ^ k) := by
      rw [← hN]
      push_cast
      ring
    rw [this]
    exact hlo
  have r1 := round_half_even_le _ _ h1
  have r2 := le_round_half_even _ _ h2
  have q1 : (round_half_even (x / u) : ℚ) ≤
      (((2 : Int) ^ (k - M + ((prec : Int) - 1)).toNat : Int) : ℚ) := by exact_mod_cast r1
  have q2 : ((-(2 : Int) ^ (k - M + ((prec : Int) - 1)).toNat : Int) : ℚ) ≤
      (round_half_even (x / u) : ℚ) := by exact_mod_cast r2
  rw [abs_le]
  constructor
  · have := mul_le_mul_of_nonneg_right q2 (le_of_lt hupos)
    have e : ((-(2 : Int) ^ (k - M + ((prec : Int) - 1)).toNat : Int) : ℚ) * u = -(2 ^ k) := by
      rw [← hN]
      push_cast
      ring
    linarith
  · have := mul_le_mul_of_nonneg_right q1 (le_of_lt hupos)
    linarith

/-- An integer rounds to itself. -/
theorem round_half_even_intCast (m : Int) : round_half_even (m : ℚ) = m := by
  apply round_half_even_eq
  simp

/-- A multiple `m * 2^j` of a power of 2 on or above the subnormal grid, with
at most `prec` significant bits, is a floating-point number. -/
theorem round_to_precision_of_repr (prec : Nat) (hprec : 1 ≤ prec) (emin : Int) (m j : Int)
    (hj : emin - ((prec : Int) - 1) ≤ j) (hm : |m| ≤ 2 ^ prec) :
    round_to_precision prec emin ((m : ℚ) * 2 ^ j) = (m : ℚ) * 2 ^ j := by
  by_cases hm0 : m = 0
  · rw [hm0]
    simp [round_to_precision_zero]
  have hjpos : (0 : ℚ) < 2 ^ j := by positivity
  have hmq : (m : ℚ) ≠ 0 := by exact_mod_cast hm0
  have hx : (m : ℚ) * 2 ^ j ≠ 0 := mul_ne_zero hmq (ne_of_gt hjpos)
  have hpos : (0 : ℚ) < |(m : ℚ) * 2 ^ j| := abs_pos.mpr hx
  have hlog : (2 : ℚ) ^ (Int.log 2 |(m : ℚ) * 2 ^ j|) ≤ |(m : ℚ) * 2 ^ j| := by
    simpa using Int.zpow_log_le_self (b := 2) (by norm_num) hpos
  have habs : |(m : ℚ) * 2 ^ j| = |(m : ℚ)| * 2 ^ j := by
    rw [abs_mul, abs_of_pos hjpos]
  have hmle : |(m : ℚ)| ≤ 2 ^ (prec : Int) := by
    have : ((|m| : Int) : ℚ) ≤ (((2 : Int) ^ prec : Int) : ℚ) := by exact_mod_cast hm
    push_cast at this
    rw [zpow_natCast]
    exact this
  have hup : |(m : ℚ) * 2 ^ j| ≤ (2 : ℚ) ^ ((prec : Int) + j) := by
    rw [habs, zpow_add₀ (by norm_num : (2 : ℚ) ≠ 0)]
    exact mul_le_mul_of_nonneg_right hmle (le_of_lt hjpos)
  have hele : Int.log 2 |(m : ℚ) * 2 ^ j| ≤ (prec : Int) + j :=
    (zpow_le_zpow_iff_right₀ (by norm_num : (1 : ℚ) < 2)).mp (le_trans hlog hup)
  unfold round_to_precision
  rw [if_neg hx]
  set e := Int.log 2 |(m : ℚ) * 2 ^ j| with he
  set M := max e emin with hM
  by_cases hd : M - ((prec : Int) - 1) ≤ j
  · -- the quotient by the unit in the last place is an integer
    have hn : ((j - (M - ((prec : Int) - 1))).toNat : Int) = j - (M - ((prec : Int) - 1)) :=
      Int.toNat_of_nonneg (by omega)
    have hsplit : (2 : ℚ) ^ j =
        2 ^ (j - (M - ((prec : Int) - 1))) * 2 ^ (M - ((prec : Int) - 1)) := by
      rw [← zpow_add₀ (by norm_num : (2 : ℚ) ≠ 0)]
      congr 1
      ring
    have hnat : (2 : ℚ) ^ (j - (M - ((prec : Int) - 1))).toNat =
        2 ^ (j - (M - ((prec : Int) - 1))) := by
      rw [← zpow_natCast, hn]
    have hune : (2 : ℚ) ^ (M - ((prec : Int) - 1)) ≠ 0 := by positivity
    have hq : (m : ℚ) * 2 ^ j / 2 ^ (M - ((prec : Int) - 1)) =
        ((m * 2 ^ (j - (M - ((prec : Int) - 1))).toNat : Int) : ℚ) := by
      push_cast
      rw [hnat]
      nth_rewrite 1 [hsplit]
      rw [← mul_assoc, mul_div_assoc, div_self hune, mul_one]
    simp only []
    rw [hq, round_half_even_intCast]
    push_cast
    rw [hnat, mul_assoc, ← hsplit]
  · -- the magnitude is the power of 2 with one bit more than `prec`
    have hd2 : j < M - ((prec : Int) - 1) := not_le.mp hd
    have hMe : M = e := by
      rcases le_total e emin with h1 | h1
      · have : M = emin := max_eq_right h1
        omega
      · exact max_eq_left h1
    have hej : e = (prec : Int) + j := by omega
    have hmeq : |(m : ℚ)| = 2 ^ (prec : Int) := by
      apply le_antisymm hmle
      have h1 : (2 : ℚ) ^ ((prec : Int) + j) ≤ |(m : ℚ)| * 2 ^ j := by
        rw [← habs, ← hej]
        exact hlog
      rw [zpow_add₀ (by norm_num : (2 : ℚ) ≠ 0)] at h1
      exact le_of_mul_le_mul_right h1 hjpos
    have hu : (2 : ℚ) ^ (M - ((prec : Int) - 1)) = 2 * 2 ^ j := by
      have : M - ((prec : Int) - 1) = j + 1 := by omega
      rw [this, zpow_add_one₀ (by norm_num : (2 : ℚ) ≠ 0)]
      ring
    have hp1 : ((prec - 1 : Nat) : Int) = (prec : Int) - 1 := by omega
    have hhalf : (2 : ℚ) ^ (prec : Int) = 2 * 2 ^ (prec - 1) := by
      have : (prec : Int) = ((prec - 1 : Nat) : Int) + 1 := by omega
      rw [this, zpow_add_one₀ (by norm_num : (2 : ℚ) ≠ 0), zpow_natCast]
      ring
    simp only []
    rw [hu]
    rcases abs_choice (m : ℚ) with hs | hs
    · rw [hs] at hmeq
      have hq : (m : ℚ) * 2 ^ j / (2 * 2 ^ j) = (((2 : Int) ^ (prec - 1) : Int) : ℚ) := by
        rw [hmeq, hhalf]
        push_cast
        field_simp
        ring
      rw [hq, round_half_even_intCast, hmeq, hhalf]
      push_cast
      ring
    · rw [hs] at hmeq
      have hmv : (m : ℚ) = -(2 ^ (prec : Int)) := by linarith
      have hq : (m : ℚ) * 2 ^ j / (2 * 2 ^ j) = ((-(2 : Int) ^ (prec - 1) : Int) : ℚ) := by
        rw [hmv, hhalf]
        push_cast
        field_simp
        ring
      rw [hq, round_half_even_intCast, hmv, hhalf]
      push_cast
      ring

/-- Every rounded value is a multiple `m * 2^j` of a power of 2 on or above
the subnormal grid with at most `prec` significant bits. -/
theorem round_to_precision_repr (prec : Nat) (emin : Int) (x : ℚ) :
    ∃ m j : Int, emin - ((prec : Int) - 1) ≤ j ∧ |m| ≤ 2 ^ prec ∧
      round_to_precision prec emin x = (m : ℚ) * 2 ^ j := by
  by_cases hx : x = 0
  · refine ⟨0, emin - ((prec : Int) - 1), le_refl _, by simp, ?_⟩
    rw [hx, round_to_precision_zero]
    simp
  have hpos : (0 : ℚ) < |x| := abs_pos.mpr hx
  have hlt : |x| < (2 : ℚ) ^ (Int.log 2 |x| + 1) := by
    simpa using Int.lt_zpow_succ_log_self (b := 2) (by norm_num) |x|
  set e := Int.log 2 |x| with he
  set M := max e emin with hM
  have heM : e ≤ M := le_max_left _ _
  have hmM : emin ≤ M := le_max_right _ _
  set u : ℚ := 2 ^ (M - ((prec : Int) - 1)) with hu
  have hupos : 0 < u := by positivity
  have hr : round_to_precision prec emin x = (round_half_even (x / u) : ℚ) * u := by
    unfold round_to_precision
    rw [if_neg hx]
  refine ⟨round_half_even (x / u), M - ((prec : Int) - 1), by omega, ?_, hr⟩
  have hN : (((2 : Int) ^ prec : Int) : ℚ) * u = 2 ^ (M + 1) := by
    rw [hu]
    push_cast
    rw [← zpow_natCast, ← zpow_add₀ (by norm_num : (2 : ℚ) ≠ 0)]
    congr 1
    ring
  have hxM : |x| ≤ (2 : ℚ) ^ (M + 1) :=
    le_trans (le_of_lt hlt) (zpow_le_zpow_right₀ (by norm_num) (by omega))
  obtain ⟨hlo, hhi⟩ := abs_le.mp hxM
  have h1 : x / u ≤ (((2 : Int) ^ prec : Int) : ℚ) := by
    rw [div_le_iff₀ hupos, hN]
    exact hhi
  have h2 : ((-(2 : Int) ^ prec : Int) : ℚ) ≤ x / u := by
    rw [le_div_iff₀ hupos]
    have : ((-(2 : Int) ^ prec : Int) : ℚ) * u = -(2 ^ (M + 1)) := by
      rw [← hN]
      push_cast
      ring
    rw [this]
    exact hlo
  have r1 := round_half_even_le _ _ h1
  have r2 := le_round_half_even _ _ h2
  rw [abs_le]
  exact ⟨r2, r1⟩

/-- Rounding a rounded value changes nothing. -/
theorem round_to_precision_idem (prec : Nat) (hprec : 1 ≤ prec) (emin : Int) (x : ℚ) :
    round_to_precision prec emin (round_to_precision prec emin x) =
      round_to_precision prec emin x := by
  obtain ⟨m, j, hj, hm, hr⟩ := round_to_precision_repr prec emin x
  rw [hr]
  exact round_to_precision_of_repr prec hprec emin m j hj hm

/-- The magnitude of a rounded value is a floating-point number. -/
theorem round_to_precision_abs (prec : Nat) (hprec : 1 ≤ prec) (emin : Int) (x : ℚ) :
    round_to_precision prec emin |round_to_precision prec emin x| =
      |round_to_precision prec emin x| := by
  obtain ⟨m, j, hj, hm, hr⟩ := round_to_precision_repr prec emin x
  have hjpos : (0 : ℚ) < 2 ^ j := by positivity
  have : |round_to_precision prec emin x| = ((|m| : Int) : ℚ) * 2 ^ j := by
    rw [hr, abs_mul, abs_of_pos hjpos]
    push_cast
    rfl
  rw [this]
  exact round_to_precision_of_repr prec hprec emin |m| j hj (by rw [abs_abs]; exact hm)

/-- IEEE 754 binary32 and binary64 have the properties of a binary
arithmetic. -/
theorem ieee_arith_binary : ieee_arith.Binary where
  float_int := binary32_intCast
  float_nonneg := round_to_precision_nonneg 24 (-126)
  float_nonpos := round_to_precision_nonpos 24 (-126)
  double_nonneg := round_to_precision_nonneg 53 (-1022)
  double_nonpos := round_to_precision_nonpos 53 (-1022)
  float_idem := round_to_precision_idem 24 (by norm_num) (-126)
  float_abs := round_to_precision_abs 24 (by norm_num) (-126)
  float_abs_ge := fun y k hk _ h => le_abs_round_to_precision 24 (by norm_num) (-126) y k hk h
  float_abs_le := fun y k hk _ h => abs_round_to_precision_le 24 (by norm_num) (-126) y k hk h
  double_abs_ge := fun y k hk _ h =>
    le_abs_round_to_precision 53 (by norm_num) (-1022) y k hk h
  double_abs_le := fun y k hk _ h =>
    abs_round_to_precision_le 53 (by norm_num) (-1022) y k hk h
  float_two_mul := fun y h _ => round_to_precision_two_mul 24 (-126) y h
  double_two_mul := fun y h _ => round_to_precision_two_mul 53 (-1022) y h

/-- C1: `tailsitter_active()` is true exactly when `is_tailsitter()` holds
(VTOL subsystem available and frame class tailsitter) and either
`in_vtol_mode()` is true or the transition state is `TRANSITION_ANGLE_WAIT_FW`;
so it is false for every non-tailsitter and for a tailsitter in steady fixed
wing flight. -/
theorem tailsitter_active_iff (s : QuadPlane) :
    (s.tailsitter_active = true ↔
      (s.is_tailsitter = true ∧
        (s.in_vtol_mode = true ∨
          s.transition_state = TransitionState.TRANSITION_ANGLE_WAIT_FW))) ∧
    (s.is_tailsitter = true ↔
      (s.available = true ∧ s.frame_class = MOTOR_FRAME_TAILSITTER)) ∧
    (s.is_tailsitter = false → s.tailsitter_active = false) ∧
    (s.is_tailsitter = true → s.in_vtol_mode = false →
      s.transition_state ≠ TransitionState.TRANSITION_ANGLE_WAIT_FW →
      s.tailsitter_active = false) := by
  refine ⟨?_, ?_, ?_, ?_⟩
  · unfold tailsitter_active
    cases s.is_tailsitter <;> cases s.in_vtol_mode <;> simp
  · simp [is_tailsitter]
  · intro h
    simp [tailsitter_active, h]
  · intro h1 h2 h3
    simp [tailsitter_active, h1, h2, h3]

/-- C1 at concrete states: a tailsitter in steady fixed wing flight and a
non-tailsitter in a VTOL mode are both inactive. -/
theorem tailsitter_active_iff_witness :
    fwState.tailsitter_active = false ∧ quadState.tailsitter_active = false :=
  ⟨(tailsitter_active_iff fwState).2.2.2 (by decide) (by decide) (by decide),
   (tailsitter_active_iff quadState).2.2.1 (by decide)⟩

/-- C2: `in_tailsitter_vtol_transition()` is true exactly when
`is_tailsitter()` is true, `in_vtol_mode()` is true and the transition state is
`TRANSITION_ANGLE_WAIT_VTOL`. -/
theorem in_tailsitter_vtol_transition_iff (s : QuadPlane) :
    s.in_tailsitter_vtol_transition = true ↔
      (s.is_tailsitter = true ∧ s.in_vtol_mode = true ∧
        s.transition_state = TransitionState.TRANSITION_ANGLE_WAIT_VTOL) := by
  simp [in_tailsitter_vtol_transition, and_assoc]

/-- C3: when `is_tailsitter()` is false, `tailsitter_output()` returns the
state it was given: no output channel, limit flag or integrator changes,
whatever the gains, the mask, the RC values and the collaborators are. -/
theorem tailsitter_output_not_tailsitter (fa : FloatArith) (motors_output : QuadPlane → QuadPlane)
    (powf : ℚ → ℚ → ℚ) (s : QuadPlane) (h : s.is_tailsitter = false) :
    tailsitter_output fa motors_output powf s = s ∧
    (∀ f, (tailsitter_output fa motors_output powf s).srv f = s.srv f) ∧
    (tailsitter_output fa motors_output powf s).limit = s.limit ∧
    (tailsitter_output fa motors_output powf s).pid_accel_z_integrator =
      s.pid_accel_z_integrator ∧
    (tailsitter_output fa motors_output powf s).pitchController_I = s.pitchController_I ∧
    (tailsitter_output fa motors_output powf s).rollController_I = s.rollController_I := by
  have e : tailsitter_output fa motors_output powf s = s := by
    simp [tailsitter_output, h]
  simp [e]

/-- C3 at a concrete state: a frame class other than tailsitter, in a VTOL
mode with gains and override set, and a `motors_output` that would change the
outputs and the flags. -/
theorem tailsitter_output_not_tailsitter_witness :
    tailsitter_output exact_arith motors_output_saturating powf_integral quadState = quadState :=
  (tailsitter_output_not_tailsitter exact_arith motors_output_saturating powf_integral quadState
    (by decide)).1

/-! ### The fixed wing / transitioning-to-VTOL path -/

/-- On the fixed wing / transitioning-to-VTOL path the call is the tilt
block followed, when line 68 holds, by the hover throttle block. -/
theorem tailsitter_output_fw_path (fa : FloatArith) (motors_output : QuadPlane → QuadPlane)
    (powf : ℚ → ℚ → ℚ) (s : QuadPlane) (ht : s.is_tailsitter = true)
    (hp : s.tailsitter_active = false ∨ s.in_tailsitter_vtol_transition = true) :
    tailsitter_output fa motors_output powf s =
      if s.hover_preset_due then ((s.forward_vectoring fa).hover_throttle_preset fa)
      else s.forward_vectoring fa := by
  have hc : (!s.tailsitter_active || s.in_tailsitter_vtol_transition) = true := by
    rcases hp with h | h <;> simp [h]
  have e : (s.forward_vectoring fa).hover_preset_due = s.hover_preset_due := by
    unfold forward_vectoring
    split <;> rfl
  simp only [tailsitter_output, ht, hc, e]
  simp

/-- The hover throttle block writes no tilt, aileron or elevator output. -/
theorem hover_throttle_preset_srv (fa : FloatArith) (s : QuadPlane) (f : Aux_servo_function_t)
    (h1 : f ≠ .k_throttle) (h2 : f ≠ .k_throttleLeft) (h3 : f ≠ .k_throttleRight)
    (h4 : f ≠ .k_rudder) : (s.hover_throttle_preset fa).srv f = s.srv f := by
  simp [hover_throttle_preset, set_output_scaled, h1, h2, h3, h4]

/-- The tilt block writes the two tilt outputs only. -/
theorem forward_vectoring_srv (fa : FloatArith) (s : QuadPlane) (f : Aux_servo_function_t)
    (h1 : f ≠ .k_tiltMotorLeft) (h2 : f ≠ .k_tiltMotorRight) :
    (s.forward_vectoring fa).srv f = s.srv f := by
  unfold forward_vectoring
  split <;> simp [set_output_scaled, h1, h2]

/-- On the fixed wing / transitioning-to-VTOL path every output other than
the throttles and the rudder is the one the tilt block leaves. -/
theorem tailsitter_output_fw_path_srv (fa : FloatArith) (motors_output : QuadPlane → QuadPlane)
    (powf : ℚ → ℚ → ℚ) (s : QuadPlane) (ht : s.is_tailsitter = true)
    (hp : s.tailsitter_active = false ∨ s.in_tailsitter_vtol_transition = true)
    (f : Aux_servo_function_t)
    (h1 : f ≠ .k_throttle) (h2 : f ≠ .k_throttleLeft) (h3 : f ≠ .k_throttleRight)
    (h4 : f ≠ .k_rudder) :
    (tailsitter_output fa motors_output powf s).srv f = (s.forward_vectoring fa).srv f := by
  rw [tailsitter_output_fw_path fa motors_output powf s ht hp]
  split
  · exact hover_throttle_preset_srv fa _ f h1 h2 h3 h4
  · rfl

/-- C4: on the fixed wing / transitioning-to-VTOL path, when
`vectored_forward_gain` is 0 or negative both tilt outputs are set to exactly
0, whatever the aileron and elevator outputs are. -/
theorem forward_tilt_zero_of_gain_nonpos (fa : FloatArith) (motors_output : QuadPlane → QuadPlane)
    (powf : ℚ → ℚ → ℚ) (s : QuadPlane) (ht : s.is_tailsitter = true)
    (hp : s.tailsitter_active = false ∨ s.in_tailsitter_vtol_transition = true)
    (hg : s.tailsitter.vectored_forward_gain ≤ 0) :
    (tailsitter_output fa motors_output powf s).srv .k_tiltMotorLeft = 0 ∧
    (tailsitter_output fa motors_output powf s).srv .k_tiltMotorRight = 0 := by
  have hn : ¬ s.tailsitter.vectored_forward_gain > 0 := not_lt.mpr hg
  constructor
  · rw [tailsitter_output_fw_path_srv fa motors_output powf s ht hp _ (by simp) (by simp)
      (by simp) (by simp)]
    simp [forward_vectoring, hn, set_output_scaled]
  · rw [tailsitter_output_fw_path_srv fa motors_output powf s ht hp _ (by simp) (by simp)
      (by simp) (by simp)]
    simp [forward_vectoring, hn, set_output_scaled]

/-- C4 at a concrete state: gain 0, aileron 300, elevator -200, stale tilt
outputs 1234: both tilt outputs become 0. -/
theorem forward_tilt_zero_of_gain_nonpos_witness :
    (tailsitter_output exact_arith motors_output_saturating powf_integral fwDeflected).srv
        .k_tiltMotorLeft = 0 ∧
    (tailsitter_output exact_arith motors_output_saturating powf_integral fwDeflected).srv
        .k_tiltMotorRight = 0 :=
  forward_tilt_zero_of_gain_nonpos exact_arith motors_output_saturating powf_integral fwDeflected
    (by decide) (Or.inl (by decide)) (by decide)

/-- With a positive forward gain the tilt block writes the two `float`
products of lines 60-61. -/
theorem forward_vectoring_tilt (fa : FloatArith) (s : QuadPlane)
    (hg : 0 < s.tailsitter.vectored_forward_gain) :
    (s.forward_vectoring fa).srv .k_tiltMotorLeft =
      fa.to_float (fa.to_float (s.srv .k_elevator + s.srv .k_aileron) *
        s.tailsitter.vectored_forward_gain) ∧
    (s.forward_vectoring fa).srv .k_tiltMotorRight =
      fa.to_float (fa.to_float (s.srv .k_elevator - s.srv .k_aileron) *
        s.tailsitter.vectored_forward_gain) := by
  have hg2 : s.tailsitter.vectored_forward_gain > 0 := hg
  simp [forward_vectoring, hg2, set_output_scaled, get_output_scaled]

/-- C5: on the fixed wing / transitioning-to-VTOL path with
`vectored_forward_gain = g > 0`, aileron output `a` and elevator output `e`,
the call writes `tiltMotorLeft = g*(e+a)` and `tiltMotorRight = g*(e-a)` and
leaves the aileron and elevator outputs unchanged, the arithmetic taken over
exact rationals; in any other arithmetic the tilts are the `float` product of
the `float` sum and the gain. -/
theorem forward_tilt_of_gain_pos (motors_output : QuadPlane → QuadPlane)
    (powf : ℚ → ℚ → ℚ) (s : QuadPlane) (ht : s.is_tailsitter = true)
    (hp : s.tailsitter_active = false ∨ s.in_tailsitter_vtol_transition = true)
    (hg : 0 < s.tailsitter.vectored_forward_gain) :
    (tailsitter_output exact_arith motors_output powf s).srv .k_tiltMotorLeft =
      s.tailsitter.vectored_forward_gain * (s.srv .k_elevator + s.srv .k_aileron) ∧
    (tailsitter_output exact_arith motors_output powf s).srv .k_tiltMotorRight =
      s.tailsitter.vectored_forward_gain * (s.srv .k_elevator - s.srv .k_aileron) ∧
    (tailsitter_output exact_arith motors_output powf s).srv .k_aileron = s.srv .k_aileron ∧
    (tailsitter_output exact_arith motors_output powf s).srv .k_elevator = s.srv .k_elevator ∧
    (∀ fa : FloatArith,
      (tailsitter_output fa motors_output powf s).srv .k_tiltMotorLeft =
        fa.to_float (fa.to_float (s.srv .k_elevator + s.srv .k_aileron) *
          s.tailsitter.vectored_forward_gain) ∧
      (tailsitter_output fa motors_output powf s).srv .k_tiltMotorRight =
        fa.to_float (fa.to_float (s.srv .k_elevator - s.srv .k_aileron) *
          s.tailsitter.vectored_forward_gain) ∧
      (tailsitter_output fa motors_output powf s).srv .k_aileron = s.srv .k_aileron ∧
      (tailsitter_output fa motors_output powf s).srv .k_elevator = s.srv .k_elevator) := by
  have key : ∀ fa : FloatArith,
      (tailsitter_output fa motors_output powf s).srv .k_tiltMotorLeft =
        fa.to_float (fa.to_float (s.srv .k_elevator + s.srv .k_aileron) *
          s.tailsitter.vectored_forward_gain) ∧
      (tailsitter_output fa motors_output powf s).srv .k_tiltMotorRight =
        fa.to_float (fa.to_float (s.srv .k_elevator - s.srv .k_aileron) *
          s.tailsitter.vectored_forward_gain) ∧
      (tailsitter_output fa motors_output powf s).srv .k_aileron = s.srv .k_aileron ∧
      (tailsitter_output fa motors_output powf s).srv .k_elevator = s.srv .k_elevator := by
    intro fa
    refine ⟨?_, ?_, ?_, ?_⟩
    · rw [tailsitter_output_fw_path_srv fa motors_output powf s ht hp _ (by simp) (by simp)
        (by simp) (by simp)]
      exact (forward_vectoring_tilt fa s hg).1
    · rw [tailsitter_output_fw_path_srv fa motors_output powf s ht hp _ (by simp) (by simp)
        (by simp) (by simp)]
      exact (forward_vectoring_tilt fa s hg).2
    · rw [tailsitter_output_fw_path_srv fa motors_output powf s ht hp _ (by simp) (by simp)
        (by simp) (by simp)]
      exact forward_vectoring_srv fa s _ (by simp) (by simp)
    · rw [tailsitter_output_fw_path_srv fa motors_output powf s ht hp _ (by simp) (by simp)
        (by simp) (by simp)]
      exact forward_vectoring_srv fa s _ (by simp) (by simp)
  obtain ⟨k1, k2, k3, k4⟩ := key exact_arith
  refine ⟨?_, ?_, k3, k4, key⟩
  · rw [k1]
    simp only [exact_arith]
    ring
  · rw [k2]
    simp only [exact_arith]
    ring

/-- C5 at a concrete state: gain 1/2, aileron 300, elevator -200 give left
tilt 50 and right tilt -250. -/
theorem forward_tilt_of_gain_pos_witness :
    (tailsitter_output exact_arith motors_output_saturating powf_integral fwVectored).srv
        .k_tiltMotorLeft = 50 ∧
    (tailsitter_output exact_arith motors_output_saturating powf_integral fwVectored).srv
        .k_tiltMotorRight = -250 := by
  have h := forward_tilt_of_gain_pos motors_output_saturating powf_integral fwVectored
    (by decide) (Or.inl (by decide)) (by norm_num [fwVectored])
  refine ⟨h.1.trans ?_, h.2.1.trans ?_⟩ <;> norm_num [fwVectored, fwDeflected]

/-! ### The hover throttle block -/

/-- The tilt block changes the output channels only. -/
theorem forward_vectoring_frame (fa : FloatArith) (s : QuadPlane) :
    (s.forward_vectoring fa).throttle_hover = s.throttle_hover ∧
    (s.forward_vectoring fa).pid_accel_z_integrator = s.pid_accel_z_integrator ∧
    (s.forward_vectoring fa).limit = s.limit ∧
    (s.forward_vectoring fa).pitchController_I = s.pitchController_I ∧
    (s.forward_vectoring fa).rollController_I = s.rollController_I := by
  unfold forward_vectoring
  split <;> simp [set_output_scaled]

/-- An active tailsitter is a tailsitter. -/
theorem is_tailsitter_of_active (s : QuadPlane) (h : s.tailsitter_active = true) :
    s.is_tailsitter = true := by
  unfold tailsitter_active at h
  cases ht : s.is_tailsitter
  · simp [ht] at h
  · rfl

/-- On the active VTOL path the call is `motors_output`, the integrator
resets, the hover vectoring block and the prop-hang override, in that order. -/
theorem tailsitter_output_vtol_path (fa : FloatArith) (motors_output : QuadPlane → QuadPlane)
    (powf : ℚ → ℚ → ℚ) (s : QuadPlane) (ha : s.tailsitter_active = true)
    (hv : s.in_tailsitter_vtol_transition = false) :
    tailsitter_output fa motors_output powf s =
      (((motors_output s).reset_I).hover_vectoring fa powf).input_mask_override := by
  simp [tailsitter_output, is_tailsitter_of_active s ha, ha, hv]

/-- A pass-through block changes the output channels only. -/
theorem pass_through_frame (s : QuadPlane) (b : Int) (f : Aux_servo_function_t)
    (stick : QuadPlane → Int) :
    (s.pass_through b f stick).limit = s.limit ∧
    (s.pass_through b f stick).pitchController_I = s.pitchController_I ∧
    (s.pass_through b f stick).rollController_I = s.rollController_I ∧
    (s.pass_through b f stick).tailsitter = s.tailsitter ∧
    (s.pass_through b f stick).channel_roll = s.channel_roll ∧
    (s.pass_through b f stick).channel_pitch = s.channel_pitch ∧
    (s.pass_through b f stick).channel_throttle = s.channel_throttle ∧
    (s.pass_through b f stick).channel_rudder = s.channel_rudder := by
  unfold pass_through
  split <;> simp [set_output_scaled]

/-- The prop-hang override leaves the limit flags and the integrators alone. -/
theorem input_mask_override_frame (s : QuadPlane) :
    s.input_mask_override.limit = s.limit ∧
    s.input_mask_override.pitchController_I = s.pitchController_I ∧
    s.input_mask_override.rollController_I = s.rollController_I := by
  unfold input_mask_override
  split
  · simp [pass_through_frame]
  · exact ⟨rfl, rfl, rfl⟩

/-- The limit flags after the hover vectoring block. -/
theorem hover_vectoring_limit (fa : FloatArith) (powf : ℚ → ℚ → ℚ) (s : QuadPlane) :
    (s.hover_vectoring fa powf).limit =
      if 0 < s.tailsitter.vectored_hover_gain ∧
          (4500 ≤ |s.hover_tilt_left fa powf| ∨ 4500 ≤ |s.hover_tilt_right fa powf|) then
        { roll_pitch := true, yaw := true }
      else s.limit := by
  unfold hover_vectoring
  by_cases hg : s.tailsitter.vectored_hover_gain > 0
  · by_cases hs : fabsf (s.hover_tilt_left fa powf) ≥ 4500 ∨ fabsf (s.hover_tilt_right fa powf) ≥ 4500
    · have hs2 : 4500 ≤ |s.hover_tilt_left fa powf| ∨ 4500 ≤ |s.hover_tilt_right fa powf| := hs
      have hg3 : 0 < s.tailsitter.vectored_hover_gain := hg
      rw [if_pos hg, if_pos ⟨hg3, hs2⟩]
      simp only [if_pos hs, set_output_scaled]
    · have hs2 : ¬ (4500 ≤ |s.hover_tilt_left fa powf| ∨ 4500 ≤ |s.hover_tilt_right fa powf|) := hs
      rw [if_pos hg, if_neg (fun h => hs2 h.2)]
      simp only [if_neg hs, set_output_scaled]
  · have hg3 : ¬ 0 < s.tailsitter.vectored_hover_gain := hg
    rw [if_neg hg, if_neg (fun h => hg3 h.1)]

/-- C7: on the active VTOL path with `vectored_hover_gain > 0`, when the
computed `|tilt_left| >= 4500` or `|tilt_right| >= 4500` both `limit.roll_pitch`
and `limit.yaw` are true after the call; when both magnitudes are below 4500
the flags are the ones `motors_output()` left; and on the fixed wing /
transitioning-to-VTOL path the flags are the ones the call was given. -/
theorem limit_flags_set_iff_saturated (fa : FloatArith) (motors_output : QuadPlane → QuadPlane)
    (powf : ℚ → ℚ → ℚ) (s : QuadPlane) :
    (s.tailsitter_active = true → s.in_tailsitter_vtol_transition = false →
      0 < (motors_output s).tailsitter.vectored_hover_gain →
      (4500 ≤ |(motors_output s).hover_tilt_left fa powf| ∨
        4500 ≤ |(motors_output s).hover_tilt_right fa powf|) →
        (tailsitter_output fa motors_output powf s).limit.roll_pitch = true ∧
        (tailsitter_output fa motors_output powf s).limit.yaw = true) ∧
    (s.tailsitter_active = true → s.in_tailsitter_vtol_transition = false →
      0 < (motors_output s).tailsitter.vectored_hover_gain →
      |(motors_output s).hover_tilt_left fa powf| < 4500 →
      |(motors_output s).hover_tilt_right fa powf| < 4500 →
        (tailsitter_output fa motors_output powf s).limit = (motors_output s).limit) ∧
    (s.is_tailsitter = true →
      (s.tailsitter_active = false ∨ s.in_tailsitter_vtol_transition = true) →
        (tailsitter_output fa motors_output powf s).limit = s.limit) := by
  refine ⟨?_, ?_, ?_⟩
  · intro ha hv hg hsat
    have hc : 0 < (motors_output s).reset_I.tailsitter.vectored_hover_gain ∧
        (4500 ≤ |(motors_output s).reset_I.hover_tilt_left fa powf| ∨
          4500 ≤ |(motors_output s).reset_I.hover_tilt_right fa powf|) := ⟨hg, hsat⟩
    rw [tailsitter_output_vtol_path fa motors_output powf s ha hv,
      (input_mask_override_frame _).1, hover_vectoring_limit, if_pos hc]
    exact ⟨rfl, rfl⟩
  · intro ha hv _ hl hr
    have hc : ¬ (0 < (motors_output s).reset_I.tailsitter.vectored_hover_gain ∧
        (4500 ≤ |(motors_output s).reset_I.hover_tilt_left fa powf| ∨
          4500 ≤ |(motors_output s).reset_I.hover_tilt_right fa powf|)) := by
      rintro ⟨_, h | h⟩
      · exact absurd hl (not_lt.mpr h)
      · exact absurd hr (not_lt.mpr h)
    rw [tailsitter_output_vtol_path fa motors_output powf s ha hv,
      (input_mask_override_frame _).1, hover_vectoring_limit, if_neg hc]
    rfl
  · intro ht hp
    rw [tailsitter_output_fw_path fa motors_output powf s ht hp]
    split
    · simp only [hover_throttle_preset, set_output_scaled]
      exact (forward_vectoring_frame fa s).2.2.1
    · exact (forward_vectoring_frame fa s).2.2.1

/-- C7 at concrete states. In binary32, hover gain 0.9f with elevator and
aileron 2500 and no pitch error computes a left tilt of exactly 4500 (the
exact product is 4499.99988), and both flags are raised. A tailsitter with
tilt 200 keeps the flags that `motors_output` raised; one in fixed wing
flight with a forward tilt of 10000 keeps its flags cleared. -/
theorem limit_flags_set_iff_saturated_witness :
    (hoverSaturating.hover_tilt_left exact_arith powf_integral < 4500 ∧
      hoverSaturating.hover_tilt_left ieee_arith powf_integral = 4500 ∧
      (tailsitter_output ieee_arith id powf_integral hoverSaturating).limit.roll_pitch = true ∧
      (tailsitter_output ieee_arith id powf_integral hoverSaturating).limit.yaw = true) ∧
    (tailsitter_output exact_arith motors_output_saturating powf_integral hoverLevel).limit =
      { roll_pitch := true, yaw := true } ∧
    (tailsitter_output exact_arith id powf_integral fwSaturated).limit =
      { roll_pitch := false, yaw := false } ∧
    (tailsitter_output exact_arith id powf_integral fwSaturated).srv .k_tiltMotorLeft = 10000 := by
  have hpe : hoverSaturating.pitch_error_cd = 0 := by
    norm_num [pitch_error_cd, truncQ, hoverSaturating, fwState]
  have hxp : hoverSaturating.extra_pitch ieee_arith = 0 := by
    unfold extra_pitch
    rw [hpe]
    norm_num [ieee_arith, binary32, binary64, round_to_precision_zero, constrain_float]
  have hxe : hoverSaturating.extra_elevator ieee_arith powf_integral = 0 := by
    unfold extra_elevator
    rw [hxp]
    simp [ieee_arith, binary32, round_to_precision_zero, fabsf, powf_integral, hoverSaturating,
      fwState]
  have h5000 : binary32 (2500 + 2500) = 5000 := by
    have := binary32_intCast 5000 (by norm_num)
    norm_num at this ⊢
    exact this
  have hprod : binary32 (5000 * (7549747 / 8388608)) = 4500 := by
    rw [binary32, round_to_precision_eq 24 (-126) _ 12 9216000 (by norm_num [le_abs])
      (by norm_num [abs_lt]) (by norm_num [abs_lt])]
    norm_num
  have h4500 : binary32 (0 + 4500) = 4500 := by
    have := binary32_intCast 4500 (by norm_num)
    norm_num at this ⊢
    exact this
  have hleft : hoverSaturating.hover_tilt_left ieee_arith powf_integral = 4500 := by
    unfold hover_tilt_left
    rw [hxe]
    show binary32 (0 + binary32 (binary32 (2500 + 2500) * (7549747 / 8388608))) = 4500
    rw [h5000, hprod, h4500]
  refine ⟨⟨?_, hleft, ?_⟩, ?_, ?_, ?_⟩
  · norm_num [hover_tilt_left, extra_elevator, extra_pitch, exact_arith, pitch_error_cd, truncQ,
      constrain_float, powf_integral, fabsf, get_output_scaled, hoverSaturating, fwState]
  · refine (limit_flags_set_iff_saturated ieee_arith id powf_integral hoverSaturating).1
      (by decide) (by decide) (by norm_num [hoverSaturating, fwState]) (Or.inl ?_)
    show (4500 : ℚ) ≤ |hoverSaturating.hover_tilt_left ieee_arith powf_integral|
    rw [hleft]
    norm_num
  · refine (limit_flags_set_iff_saturated exact_arith motors_output_saturating powf_integral
      hoverLevel).2.1 (by decide) (by decide)
      (by norm_num [hoverLevel, motors_output_saturating]) ?_ ?_
    · norm_num [hover_tilt_left, extra_elevator, extra_pitch, exact_arith, pitch_error_cd,
        truncQ, constrain_float, powf_integral, fabsf, get_output_scaled, hoverLevel, fwState,
        motors_output_saturating]
    · norm_num [hover_tilt_right, extra_elevator, extra_pitch, exact_arith, pitch_error_cd,
        truncQ, constrain_float, powf_integral, fabsf, get_output_scaled, hoverLevel, fwState,
        motors_output_saturating]
  · exact (limit_flags_set_iff_saturated exact_arith id powf_integral fwSaturated).2.2
      (by decide) (Or.inl (by decide))
  · rw [tailsitter_output_fw_path_srv exact_arith id powf_integral fwSaturated (by decide)
      (Or.inl (by decide)) _ (by simp) (by simp) (by simp) (by simp)]
    simp only [forward_vectoring, set_output_scaled, get_output_scaled, fwSaturated,
      fwDeflected, fwState, exact_arith]
    norm_num
    decide

/-! ### The prop-hang override -/

/-- The output channels after a pass-through block. -/
theorem pass_through_srv (s : QuadPlane) (b : Int) (f g : Aux_servo_function_t)
    (stick : QuadPlane → Int) :
    (s.pass_through b f stick).srv g =
      if Int.land s.tailsitter.input_mask b ≠ 0 ∧ g = f then (stick s : ℚ) else s.srv g := by
  unfold pass_through
  by_cases hb : Int.land s.tailsitter.input_mask b ≠ 0
  · by_cases hg : g = f <;> simp [hb, hg, set_output_scaled]
  · simp [hb]

/-- The hover vectoring block writes the tilt outputs and the limit flags only. -/
theorem hover_vectoring_frame (fa : FloatArith) (powf : ℚ → ℚ → ℚ) (s : QuadPlane) :
    (∀ f, f ≠ .k_tiltMotorLeft → f ≠ .k_tiltMotorRight →
      (s.hover_vectoring fa powf).srv f = s.srv f) ∧
    (s.hover_vectoring fa powf).tailsitter = s.tailsitter ∧
    (s.hover_vectoring fa powf).rcin = s.rcin ∧
    (s.hover_vectoring fa powf).channel_roll = s.channel_roll ∧
    (s.hover_vectoring fa powf).channel_pitch = s.channel_pitch ∧
    (s.hover_vectoring fa powf).channel_throttle = s.channel_throttle ∧
    (s.hover_vectoring fa powf).channel_rudder = s.channel_rudder ∧
    (s.hover_vectoring fa powf).pitchController_I = s.pitchController_I ∧
    (s.hover_vectoring fa powf).rollController_I = s.rollController_I := by
  unfold hover_vectoring
  by_cases hg : s.tailsitter.vectored_hover_gain > 0
  · by_cases hs : fabsf (s.hover_tilt_left fa powf) ≥ 4500 ∨ fabsf (s.hover_tilt_right fa powf) ≥ 4500
    · simp +contextual [if_pos hg, if_pos hs, set_output_scaled]
    · simp +contextual [if_pos hg, if_neg hs, set_output_scaled]
  · simp [if_neg hg]

/-- The aileron, elevator, throttle and rudder outputs after the override. -/
theorem input_mask_override_srv (s : QuadPlane) :
    s.input_mask_override.srv .k_aileron =
      (if s.input_mask_triggered = true ∧
          Int.land s.tailsitter.input_mask TAILSITTER_MASK_AILERON ≠ 0 then
        (s.channel_roll.control_in_zero_dz : ℚ) else s.srv .k_aileron) ∧
    s.input_mask_override.srv .k_elevator =
      (if s.input_mask_triggered = true ∧
          Int.land s.tailsitter.input_mask TAILSITTER_MASK_ELEVATOR ≠ 0 then
        (s.channel_pitch.control_in_zero_dz : ℚ) else s.srv .k_elevator) ∧
    s.input_mask_override.srv .k_throttle =
      (if s.input_mask_triggered = true ∧
          Int.land s.tailsitter.input_mask TAILSITTER_MASK_THROTTLE ≠ 0 then
        (s.channel_throttle.control_in_zero_dz : ℚ) else s.srv .k_throttle) ∧
    s.input_mask_override.srv .k_rudder =
      (if s.input_mask_triggered = true ∧
          Int.land s.tailsitter.input_mask TAILSITTER_MASK_RUDDER ≠ 0 then
        (s.channel_rudder.control_in_zero_dz : ℚ) else s.srv .k_rudder) := by
  unfold input_mask_override
  by_cases ht : s.input_mask_triggered = true
  · simp only [ht, if_true, true_and, pass_through_srv, pass_through_frame]
    simp
  · simp [ht]

/-- The override condition is the same before and after the integrator
resets and the hover vectoring block, and so are the four outputs and the
pilot sticks it uses. -/
theorem vtol_base_frame (fa : FloatArith) (powf : ℚ → ℚ → ℚ) (m : QuadPlane) :
    (m.reset_I.hover_vectoring fa powf).input_mask_triggered = m.input_mask_triggered ∧
    (m.reset_I.hover_vectoring fa powf).tailsitter = m.tailsitter ∧
    (m.reset_I.hover_vectoring fa powf).channel_roll = m.channel_roll ∧
    (m.reset_I.hover_vectoring fa powf).channel_pitch = m.channel_pitch ∧
    (m.reset_I.hover_vectoring fa powf).channel_throttle = m.channel_throttle ∧
    (m.reset_I.hover_vectoring fa powf).channel_rudder = m.channel_rudder ∧
    (m.reset_I.hover_vectoring fa powf).srv .k_aileron = m.srv .k_aileron ∧
    (m.reset_I.hover_vectoring fa powf).srv .k_elevator = m.srv .k_elevator ∧
    (m.reset_I.hover_vectoring fa powf).srv .k_throttle = m.srv .k_throttle ∧
    (m.reset_I.hover_vectoring fa powf).srv .k_rudder = m.srv .k_rudder := by
  obtain ⟨hs, ht, hr, h1, h2, h3, h4, _, _⟩ := hover_vectoring_frame fa powf m.reset_I
  refine ⟨?_, ht, h1, h2, h3, h4, hs _ (by simp) (by simp), hs _ (by simp) (by simp),
    hs _ (by simp) (by simp), hs _ (by simp) (by simp)⟩
  unfold input_mask_triggered
  rw [ht, hr]
  rfl

/-- C8: on the active VTOL path, if `input_mask_chan > 0`, `input_mask > 0`
and the raw RC value on channel `input_mask_chan-1` is above 1700, each of
aileron, elevator, throttle and rudder whose mask bit is set ends as the
pilot roll, pitch, throttle or rudder stick value (zero deadzone) and each
whose bit is clear keeps the value it had after `motors_output()`; if the
condition is false (a raw value of exactly 1700 included, or
`input_mask_chan = 0`) none of the four is overridden. -/
theorem input_mask_override_iff_triggered (fa : FloatArith) (motors_output : QuadPlane → QuadPlane)
    (powf : ℚ → ℚ → ℚ) (s : QuadPlane) :
    (s.tailsitter_active = true → s.in_tailsitter_vtol_transition = false →
      0 < (motors_output s).tailsitter.input_mask_chan →
      0 < (motors_output s).tailsitter.input_mask →
      1700 < (motors_output s).rcin ((motors_output s).tailsitter.input_mask_chan - 1).toNat →
        (tailsitter_output fa motors_output powf s).srv .k_aileron =
          (if Int.land (motors_output s).tailsitter.input_mask TAILSITTER_MASK_AILERON ≠ 0
            then ((motors_output s).channel_roll.control_in_zero_dz : ℚ)
            else (motors_output s).srv .k_aileron) ∧
        (tailsitter_output fa motors_output powf s).srv .k_elevator =
          (if Int.land (motors_output s).tailsitter.input_mask TAILSITTER_MASK_ELEVATOR ≠ 0
            then ((motors_output s).channel_pitch.control_in_zero_dz : ℚ)
            else (motors_output s).srv .k_elevator) ∧
        (tailsitter_output fa motors_output powf s).srv .k_throttle =
          (if Int.land (motors_output s).tailsitter.input_mask TAILSITTER_MASK_THROTTLE ≠ 0
            then ((motors_output s).channel_throttle.control_in_zero_dz : ℚ)
            else (motors_output s).srv .k_throttle) ∧
        (tailsitter_output fa motors_output powf s).srv .k_rudder =
          (if Int.land (motors_output s).tailsitter.input_mask TAILSITTER_MASK_RUDDER ≠ 0
            then ((motors_output s).channel_rudder.control_in_zero_dz : ℚ)
            else (motors_output s).srv .k_rudder)) ∧
    (s.tailsitter_active = true → s.in_tailsitter_vtol_transition = false →
      ((motors_output s).tailsitter.input_mask_chan ≤ 0 ∨
        (motors_output s).tailsitter.input_mask ≤ 0 ∨
        (motors_output s).rcin ((motors_output s).tailsitter.input_mask_chan - 1).toNat
          ≤ 1700) →
        (tailsitter_output fa motors_output powf s).srv .k_aileron =
          (motors_output s).srv .k_aileron ∧
        (tailsitter_output fa motors_output powf s).srv .k_elevator =
          (motors_output s).srv .k_elevator ∧
        (tailsitter_output fa motors_output powf s).srv .k_throttle =
          (motors_output s).srv .k_throttle ∧
        (tailsitter_output fa motors_output powf s).srv .k_rudder =
          (motors_output s).srv .k_rudder) := by
  obtain ⟨ftrig, fts, fr, fp, fth, fru, fal, fe, ft, fd⟩ :=
    vtol_base_frame fa powf (motors_output s)
  obtain ⟨oa, oe, ot, od⟩ :=
    input_mask_override_srv ((motors_output s).reset_I.hover_vectoring fa powf)
  rw [ftrig, fts, fr, fal] at oa
  rw [ftrig, fts, fp, fe] at oe
  rw [ftrig, fts, fth, ft] at ot
  rw [ftrig, fts, fru, fd] at od
  constructor
  · intro ha hv hc hm hr
    have htrig : (motors_output s).input_mask_triggered = true := by
      unfold input_mask_triggered
      rw [decide_eq_true hc, decide_eq_true hm, decide_eq_true hr]
      rfl
    rw [tailsitter_output_vtol_path fa motors_output powf s ha hv, oa, oe, ot, od]
    simp only [htrig, true_and]
  · intro ha hv hn
    have htrig : (motors_output s).input_mask_triggered = false := by
      unfold input_mask_triggered
      rcases hn with h | h | h
      · rw [decide_eq_false (not_lt.mpr h)]
        rfl
      · rw [decide_eq_false (not_lt.mpr h)]
        simp only [Bool.and_false, Bool.false_and]
      · rw [decide_eq_false (not_lt.mpr h)]
        simp only [Bool.and_false]
    rw [tailsitter_output_vtol_path fa motors_output powf s ha hv, oa, oe, ot, od]
    simp [htrig]

/-- C8 at concrete states: mask = throttle|aileron and raw = 1800 give an
aileron output equal to the pilot roll stick value 123 and a throttle output
equal to the throttle stick value 40, while elevator and rudder keep the 1000
that `motors_output` wrote; with raw = 1700 the aileron keeps 1000. -/
theorem input_mask_override_iff_triggered_witness :
    ((tailsitter_output exact_arith motors_output_saturating powf_integral hoverLearning).srv
        .k_aileron = 123 ∧
      (tailsitter_output exact_arith motors_output_saturating powf_integral hoverLearning).srv
        .k_elevator = 1000 ∧
      (tailsitter_output exact_arith motors_output_saturating powf_integral hoverLearning).srv
        .k_throttle = 40 ∧
      (tailsitter_output exact_arith motors_output_saturating powf_integral hoverLearning).srv
        .k_rudder = 1000) ∧
    (tailsitter_output exact_arith motors_output_saturating powf_integral hoverLearningOff).srv
        .k_aileron = 1000 := by
  have h1 := (input_mask_override_iff_triggered exact_arith motors_output_saturating powf_integral
    hoverLearning).1 (by decide) (by decide) (by decide) (by decide) (by decide)
  have h2 := (input_mask_override_iff_triggered exact_arith motors_output_saturating powf_integral
    hoverLearningOff).2 (by decide) (by decide) (Or.inr (Or.inr (by decide)))
  have ba : Int.land (motors_output_saturating hoverLearning).tailsitter.input_mask
      TAILSITTER_MASK_AILERON ≠ 0 := by decide
  have be : ¬ Int.land (motors_output_saturating hoverLearning).tailsitter.input_mask
      TAILSITTER_MASK_ELEVATOR ≠ 0 := by decide
  have bt : Int.land (motors_output_saturating hoverLearning).tailsitter.input_mask
      TAILSITTER_MASK_THROTTLE ≠ 0 := by decide
  have bd : ¬ Int.land (motors_output_saturating hoverLearning).tailsitter.input_mask
      TAILSITTER_MASK_RUDDER ≠ 0 := by decide
  rw [if_pos ba, if_neg be, if_pos bt, if_neg bd] at h1
  refine ⟨⟨h1.1.trans ?_, h1.2.1.trans ?_, h1.2.2.1.trans ?_, h1.2.2.2.trans ?_⟩,
    h2.1.trans ?_⟩
  · norm_num [motors_output_saturating, hoverLearning]
  · rfl
  · norm_num [motors_output_saturating, hoverLearning]
  · rfl
  · rfl

/-! ### Transition completion -/

/-- C9: `tailsitter_transition_fw_complete()` returns true whenever
`plane.fly_inverted()` is true, for every roll, pitch, transition angle,
current time and transition start. -/
theorem fw_complete_of_inverted (s : QuadPlane) (h : s.fly_inverted = true) :
    s.tailsitter_transition_fw_complete = true := by
  simp [tailsitter_transition_fw_complete, h]

/-- C9 at a concrete state: inverted, level, no time elapsed. -/
theorem fw_complete_of_inverted_witness :
    fwInverted.elapsed_ms = 0 ∧ fwInverted.tailsitter_transition_fw_complete = true :=
  ⟨by decide, fw_complete_of_inverted fwInverted (by decide)⟩

/-- C10 as stated fails: a non-inverted, level tailsitter with a positive
transition angle and an elapsed time of exactly 2000 ms is not complete. -/
theorem fw_complete_at_2000_counterexample :
    fwAtTimeout.fly_inverted = false ∧
    fwAtTimeout.elapsed_ms = 2000 ∧
    fwAtTimeout.ahrs_view.pitch_sensor = 0 ∧
    fwAtTimeout.folded_roll_cd = 0 ∧
    0 < fwAtTimeout.tailsitter.transition_angle ∧
    fwAtTimeout.tailsitter_transition_fw_complete = false := by
  decide

/-- C10 amended: for every non-inverted state whose elapsed time
`millis() - transition_start_ms` is strictly above 2000 ms,
`tailsitter_transition_fw_complete()` returns true, also when pitch and
folded roll are both 0 and the transition angle is positive; at an elapsed
time of 2000 ms or less with neither angle test firing it returns false. -/
theorem fw_complete_of_timeout (s : QuadPlane) :
    (s.fly_inverted = false → 2000 < s.elapsed_ms →
      s.tailsitter_transition_fw_complete = true) ∧
    (s.fly_inverted = false → s.elapsed_ms ≤ 2000 →
      labs s.ahrs_view.pitch_sensor ≤ s.tailsitter.transition_angle * 100 →
      s.folded_roll_cd ≤ s.tailsitter.transition_angle * 100 →
      s.tailsitter_transition_fw_complete = false) := by
  constructor
  · intro hi he
    have he2 : s.elapsed_ms > 2000 := he
    simp [tailsitter_transition_fw_complete, hi, he2]
  · intro hi he hp hr
    simp [tailsitter_transition_fw_complete, hi, not_lt.mpr he, not_lt.mpr hp, not_lt.mpr hr]

/-- C10 amended at concrete states: level and non-inverted with a transition
angle of 45 degrees, complete at 2001 ms and not complete at 2000 ms. -/
theorem fw_complete_of_timeout_witness :
    (fwPastTimeout.elapsed_ms = 2001 ∧
      fwPastTimeout.tailsitter_transition_fw_complete = true) ∧
    fwAtTimeout.tailsitter_transition_fw_complete = false :=
  ⟨⟨by decide, (fw_complete_of_timeout fwPastTimeout).1 (by decide) (by decide)⟩,
   (fw_complete_of_timeout fwAtTimeout).2 (by decide) (by decide) (by decide) (by decide)⟩

/-- The C library `labs` is the absolute value. -/
theorem labs_eq_abs (x : Int) : labs x = |x| := by
  unfold labs
  exact Int.natCast_natAbs x

/-- The folded roll in terms of the absolute value. -/
theorem folded_roll_cd_eq (s : QuadPlane) :
    s.folded_roll_cd =
      if |s.ahrs_view.roll_sensor| ≤ 9000 then |s.ahrs_view.roll_sensor|
      else 18000 - |s.ahrs_view.roll_sensor| := by
  unfold folded_roll_cd
  simp only [labs_eq_abs]
  by_cases h : |s.ahrs_view.roll_sensor| ≤ 9000
  · rw [if_pos h, if_neg (not_lt.mpr h)]
  · rw [if_neg h, if_pos (not_le.mp h)]

/-- The elapsed time is the 32-bit difference of the two clock readings; when
the clock has not wrapped since the start of the transition it is their
plain difference. -/
theorem elapsed_ms_eq (s : QuadPlane) :
    s.elapsed_ms = (s.millis + 2 ^ 32 - s.transition_start_ms % 2 ^ 32) % 2 ^ 32 ∧
    (s.transition_start_ms ≤ s.millis → s.millis < 2 ^ 32 →
      s.elapsed_ms = s.millis - s.transition_start_ms) := by
  refine ⟨rfl, ?_⟩
  intro h1 h2
  unfold elapsed_ms uint32_sub
  norm_num at h2 ⊢
  omega

/-- C11: for every non-inverted state with view roll `r` and view pitch `p`,
`tailsitter_transition_fw_complete()` is true exactly when `|p| > T` or
`fold(|r|) > T` or `elapsed > 2000`, with `T = transition_angle*100`,
`fold(x) = x` for `x <= 9000`, `18000 - x` otherwise, and `elapsed` the
32-bit difference `millis() - transition_start_ms`, which is the plain
difference when the clock has not wrapped since the start. With `r = 10000`,
which folds to 8000, `p = 0` and `elapsed <= 2000` the result is true for a
transition angle of 75 and false for 85. No bound on `r` is needed. -/
theorem fw_complete_iff (s : QuadPlane) (hi : s.fly_inverted = false) :
    (s.tailsitter_transition_fw_complete = true ↔
      (|s.ahrs_view.pitch_sensor| > s.tailsitter.transition_angle * 100 ∨
        (if |s.ahrs_view.roll_sensor| ≤ 9000 then |s.ahrs_view.roll_sensor|
          else 18000 - |s.ahrs_view.roll_sensor|) > s.tailsitter.transition_angle * 100 ∨
        (s.millis + 2 ^ 32 - s.transition_start_ms % 2 ^ 32) % 2 ^ 32 > 2000)) ∧
    (s.transition_start_ms ≤ s.millis → s.millis < 2 ^ 32 →
      (s.tailsitter_transition_fw_complete = true ↔
        (|s.ahrs_view.pitch_sensor| > s.tailsitter.transition_angle * 100 ∨
          (if |s.ahrs_view.roll_sensor| ≤ 9000 then |s.ahrs_view.roll_sensor|
            else 18000 - |s.ahrs_view.roll_sensor|) > s.tailsitter.transition_angle * 100 ∨
          s.millis - s.transition_start_ms > 2000))) ∧
    (s.ahrs_view.roll_sensor = 10000 → s.ahrs_view.pitch_sensor = 0 →
      (s.millis + 2 ^ 32 - s.transition_start_ms % 2 ^ 32) % 2 ^ 32 ≤ 2000 →
      (if |s.ahrs_view.roll_sensor| ≤ 9000 then |s.ahrs_view.roll_sensor|
        else 18000 - |s.ahrs_view.roll_sensor|) = 8000 ∧
      (s.tailsitter.transition_angle = 75 → s.tailsitter_transition_fw_complete = true) ∧
      (s.tailsitter.transition_angle = 85 → s.tailsitter_transition_fw_complete = false)) := by
  have key : s.tailsitter_transition_fw_complete = true ↔
      (|s.ahrs_view.pitch_sensor| > s.tailsitter.transition_angle * 100 ∨
        (if |s.ahrs_view.roll_sensor| ≤ 9000 then |s.ahrs_view.roll_sensor|
          else 18000 - |s.ahrs_view.roll_sensor|) > s.tailsitter.transition_angle * 100 ∨
        s.elapsed_ms > 2000) := by
    rw [← folded_roll_cd_eq, ← labs_eq_abs]
    simp [tailsitter_transition_fw_complete, hi]
  refine ⟨?_, ?_, ?_⟩
  · rw [key, (elapsed_ms_eq s).1]
  · intro h1 h2
    rw [key, (elapsed_ms_eq s).2 h1 h2]
  · intro hr hp he
    have hfold : (if |s.ahrs_view.roll_sensor| ≤ 9000 then |s.ahrs_view.roll_sensor|
        else 18000 - |s.ahrs_view.roll_sensor|) = 8000 := by
      rw [hr]
      decide
    have he2 : ¬ s.elapsed_ms > 2000 := by
      rw [(elapsed_ms_eq s).1]
      exact not_lt.mpr he
    refine ⟨hfold, ?_, ?_⟩
    · intro ht
      rw [key, hfold, ht]
      exact Or.inr (Or.inl (by decide))
    · intro ht
      have hn : ¬ s.tailsitter_transition_fw_complete = true := by
        rw [key, hfold, ht, hp]
        intro h
        rcases h with h | h | h
        · exact absurd h (by decide)
        · exact absurd h (by decide)
        · exact he2 h
      simpa using hn

/-- C11 at concrete states, each 1500 ms after a transition start at 5000 ms
unless said otherwise: a view roll of 10000 folds to 8000 and with level pitch
the transition is complete for a transition angle of 75 degrees and not
complete for 85 degrees; a level state is complete 2001 ms after the start,
not complete after 2000 ms, and complete 2500 ms after a start 1000 ms before
the 32-bit clock wraps. -/
theorem fw_complete_iff_witness :
    (fwRolled75.millis - fwRolled75.transition_start_ms = 1500 ∧
      fwRolled75.folded_roll_cd = 8000 ∧
      fwRolled75.tailsitter_transition_fw_complete = true) ∧
    (fwRolled85.millis - fwRolled85.transition_start_ms = 1500 ∧
      fwRolled85.folded_roll_cd = 8000 ∧
      fwRolled85.tailsitter_transition_fw_complete = false) ∧
    (fwPastTimeout.millis - fwPastTimeout.transition_start_ms = 2001 ∧
      fwPastTimeout.tailsitter_transition_fw_complete = true) ∧
    (fwAtTimeout.millis - fwAtTimeout.transition_start_ms = 2000 ∧
      fwAtTimeout.tailsitter_transition_fw_complete = false) ∧
    (fwClockWrapped.transition_start_ms = 2 ^ 32 - 1000 ∧ fwClockWrapped.millis = 1500 ∧
      fwClockWrapped.tailsitter_transition_fw_complete = true) := by
  refine ⟨⟨by decide, by decide, ?_⟩, ⟨by decide, by decide, ?_⟩, ⟨by decide, ?_⟩,
    ⟨by decide, ?_⟩, ⟨by decide, by decide, ?_⟩⟩
  · exact ((fw_complete_iff fwRolled75 (by decide)).2.2 (by decide) (by decide)
      (by decide)).2.1 (by decide)
  · exact ((fw_complete_iff fwRolled85 (by decide)).2.2 (by decide) (by decide)
      (by decide)).2.2 (by decide)
  · exact ((fw_complete_iff fwPastTimeout (by decide)).2.1 (by decide) (by decide)).mpr
      (Or.inr (Or.inr (by decide)))
  · have h := (fw_complete_iff fwAtTimeout (by decide)).2.1 (by decide) (by decide)
    have hn : ¬ fwAtTimeout.tailsitter_transition_fw_complete = true := by
      rw [h]
      decide
    simpa using hn
  · exact (fw_complete_iff fwClockWrapped (by decide)).1.mpr (Or.inr (Or.inr (by decide)))

/-- C12: `tailsitter_transition_vtol_complete()` is true exactly when
`fly_inverted()` is true, or `|raw pitch| > T`, or `|raw roll| > T` (not
folded), or `elapsed > 2000`, with `T = transition_angle*100` and `elapsed`
the 32-bit difference `millis() - transition_start_ms`, which is the plain
difference when the clock has not wrapped since the start; a raw roll of
10000 with a transition angle of 85 gives true; replacing the view attitude
by any other leaves its result unchanged. -/
theorem vtol_complete_iff (s : QuadPlane) :
    (s.tailsitter_transition_vtol_complete = true ↔
      (s.fly_inverted = true ∨
        |s.ahrs.pitch_sensor| > s.tailsitter.transition_angle * 100 ∨
        |s.ahrs.roll_sensor| > s.tailsitter.transition_angle * 100 ∨
        (s.millis + 2 ^ 32 - s.transition_start_ms % 2 ^ 32) % 2 ^ 32 > 2000)) ∧
    (s.transition_start_ms ≤ s.millis → s.millis < 2 ^ 32 →
      (s.tailsitter_transition_vtol_complete = true ↔
        (s.fly_inverted = true ∨
          |s.ahrs.pitch_sensor| > s.tailsitter.transition_angle * 100 ∨
          |s.ahrs.roll_sensor| > s.tailsitter.transition_angle * 100 ∨
          s.millis - s.transition_start_ms > 2000))) ∧
    (s.ahrs.roll_sensor = 10000 → s.tailsitter.transition_angle = 85 →
      s.tailsitter_transition_vtol_complete = true) ∧
    (∀ v : AHRS,
      ({ s with ahrs_view := v }).tailsitter_transition_vtol_complete =
        s.tailsitter_transition_vtol_complete) := by
  have key : s.tailsitter_transition_vtol_complete = true ↔
      (s.fly_inverted = true ∨
        |s.ahrs.pitch_sensor| > s.tailsitter.transition_angle * 100 ∨
        |s.ahrs.roll_sensor| > s.tailsitter.transition_angle * 100 ∨
        s.elapsed_ms > 2000) := by
    rw [← labs_eq_abs, ← labs_eq_abs]
    unfold tailsitter_transition_vtol_complete
    cases s.fly_inverted <;> simp
  refine ⟨?_, ?_, ?_, ?_⟩
  · rw [key, (elapsed_ms_eq s).1]
  · intro h1 h2
    rw [key, (elapsed_ms_eq s).2 h1 h2]
  · intro hr ht
    rw [key, hr, ht]
    exact Or.inr (Or.inr (Or.inl (by decide)))
  · intro v
    rfl

/-- C12 at concrete states: 1500 ms after the start, a raw roll of 10000 with
a transition angle of 85 degrees and level pitch is complete, since the roll
is not folded, whatever the view attitude; a level, non-inverted state with a
transition angle of 45 degrees is complete 2001 ms after the start and not
complete after 2000 ms. -/
theorem vtol_complete_iff_witness :
    (vtolRolled85.millis - vtolRolled85.transition_start_ms = 1500 ∧
      vtolRolled85.tailsitter_transition_vtol_complete = true ∧
      ({ vtolRolled85 with ahrs_view := { roll_sensor := 9000, pitch_sensor := 9000 } }
        ).tailsitter_transition_vtol_complete = true) ∧
    (fwPastTimeout.millis - fwPastTimeout.transition_start_ms = 2001 ∧
      fwPastTimeout.tailsitter_transition_vtol_complete = true) ∧
    (fwAtTimeout.millis - fwAtTimeout.transition_start_ms = 2000 ∧
      fwAtTimeout.tailsitter_transition_vtol_complete = false) := by
  have h1 : vtolRolled85.tailsitter_transition_vtol_complete = true :=
    (vtol_complete_iff vtolRolled85).2.2.1 (by decide) (by decide)
  refine ⟨⟨by decide, h1, ?_⟩, ⟨by decide, ?_⟩, ⟨by decide, ?_⟩⟩
  · rw [(vtol_complete_iff vtolRolled85).2.2.2 _]
    exact h1
  · exact ((vtol_complete_iff fwPastTimeout).2.1 (by decide) (by decide)).mpr
      (Or.inr (Or.inr (Or.inr (by decide))))
  · have h := (vtol_complete_iff fwAtTimeout).2.1 (by decide) (by decide)
    have hn : ¬ fwAtTimeout.tailsitter_transition_vtol_complete = true := by
      rw [h]
      decide
    simpa using hn

/-- C13: the two completion predicates can disagree on the same cycle. There
are two states with the same transition angle, transition start, current
time and inverted flag, differing only in what the view attitude and the raw
attitude report, such that on the first `fw_complete` is true and
`vtol_complete` false, and on the second `fw_complete` is false and
`vtol_complete` true. -/
theorem fw_vtol_complete_disagree :
    ∃ s1 s2 : QuadPlane,
      s1.tailsitter.transition_angle = s2.tailsitter.transition_angle ∧
      s1.transition_start_ms = s2.transition_start_ms ∧
      s1.millis = s2.millis ∧
      s1.fly_inverted = s2.fly_inverted ∧
      s1.ahrs_view ≠ s1.ahrs ∧ s2.ahrs_view ≠ s2.ahrs ∧
      s1.tailsitter_transition_fw_complete = true ∧
      s1.tailsitter_transition_vtol_complete = false ∧
      s2.tailsitter_transition_fw_complete = false ∧
      s2.tailsitter_transition_vtol_complete = true :=
  ⟨viewPitched, rawPitched, by decide⟩

/-- C14: with 16-bit pilot commands `roll_in` (not -32768) and `yaw_in`, when
`tailsitter_active()` is true and `input_type` is `TAILSITTER_INPUT_PLANE`
the call leaves the roll channel with control-in `yaw_in` and the rudder
channel with control-in `-roll_in`; when `tailsitter_active()` is false or
`input_type` is not PLANE the state, and so both control-in values, is
unchanged. -/
theorem check_input_swaps (s : QuadPlane) :
    (s.tailsitter_active = true → s.tailsitter.input_type = TAILSITTER_INPUT_PLANE →
      -32768 < s.channel_roll.control_in → s.channel_roll.control_in ≤ 32767 →
        s.tailsitter_check_input.channel_roll.control_in = s.channel_rudder.control_in ∧
        s.tailsitter_check_input.channel_rudder.control_in = -s.channel_roll.control_in) ∧
    ((s.tailsitter_active = false ∨ s.tailsitter.input_type ≠ TAILSITTER_INPUT_PLANE) →
        s.tailsitter_check_input = s ∧
        s.tailsitter_check_input.channel_roll.control_in = s.channel_roll.control_in ∧
        s.tailsitter_check_input.channel_rudder.control_in =
          s.channel_rudder.control_in) := by
  constructor
  · intro ha ht h1 h2
    have hc : (s.tailsitter_active && (s.tailsitter.input_type == TAILSITTER_INPUT_PLANE))
        = true := by simp [ha, ht]
    have hw : int16_of_int (-s.channel_roll.control_in) = -s.channel_roll.control_in := by
      unfold int16_of_int
      omega
    unfold tailsitter_check_input
    rw [if_pos hc]
    exact ⟨rfl, hw⟩
  · intro hn
    have hc : ¬ (s.tailsitter_active && (s.tailsitter.input_type == TAILSITTER_INPUT_PLANE))
        = true := by
      rcases hn with h | h <;> simp [h]
    have e : s.tailsitter_check_input = s := by
      unfold tailsitter_check_input
      rw [if_neg hc]
    rw [e]
    exact ⟨rfl, rfl, rfl⟩

/-- C14 at concrete states: `roll_in = 300`, `yaw_in = -150` give roll -150
and rudder -300 when active with plane-frame input, and stay 300 and -150 in
steady fixed wing flight. -/
theorem check_input_swaps_witness :
    (planeInput.tailsitter_check_input.channel_roll.control_in = -150 ∧
      planeInput.tailsitter_check_input.channel_rudder.control_in = -300) ∧
    (planeInputInactive.tailsitter_check_input.channel_roll.control_in = 300 ∧
      planeInputInactive.tailsitter_check_input.channel_rudder.control_in = -150) :=
  ⟨(check_input_swaps planeInput).1 (by decide) (by decide) (by decide) (by decide),
   ((check_input_swaps planeInputInactive).2 (Or.inl (by decide))).2⟩

/-! ### The power law of the hover vectoring -/

/-- Inside its range, `constrain_float` returns its argument. -/
theorem constrain_float_of_mem (x lo hi : ℚ) (h1 : lo ≤ x) (h2 : x ≤ hi) :
    constrain_float x lo hi = x := by
  unfold constrain_float
  rw [if_neg (not_lt.mpr h1), if_neg (not_lt.mpr h2)]

/-- The value of `constrain_float` as a maximum of a minimum. -/
theorem constrain_float_eq_max_min (x lo hi : ℚ) (h : lo ≤ hi) :
    constrain_float x lo hi = max lo (min x hi) := by
  unfold constrain_float
  by_cases h1 : x < lo
  · rw [if_pos h1, min_eq_left (by linarith), max_eq_left (le_of_lt h1)]
  · rw [if_neg h1]
    by_cases h2 : hi < x
    · rw [if_pos h2, min_eq_right (le_of_lt h2), max_eq_right h]
    · rw [if_neg h2, min_eq_left (not_lt.mp h2), max_eq_right (not_lt.mp h1)]

/-- Every integer is the pitch error of some state. -/
theorem pitch_error_cd_surjective (e : Int) :
    ∃ s : QuadPlane, s.pitch_error_cd = e := by
  refine ⟨{ fwState with nav_pitch_cd := 2 * e }, ?_⟩
  have h : (((2 * e - 0 : Int) : ℚ) * (1 / 2)) = (e : ℚ) := by
    push_cast
    ring
  show truncQ (((2 * e - 0 : Int) : ℚ) * (1 / 2)) = e
  rw [h]
  unfold truncQ
  split <;> simp

/-- In exact arithmetic line 98 is the clamped pitch error over 4500. -/
theorem extra_pitch_exact (s : QuadPlane) :
    s.extra_pitch exact_arith = constrain_float (s.pitch_error_cd : ℚ) (-4500) 4500 / 4500 :=
  rfl

/-- In a binary arithmetic zero is a `float` and a `double`. -/
theorem binary_zero (fa : FloatArith) (hB : fa.Binary) :
    fa.to_float 0 = 0 ∧ fa.to_double 0 = 0 :=
  ⟨le_antisymm (hB.float_nonpos 0 (le_refl 0)) (hB.float_nonneg 0 (le_refl 0)),
   le_antisymm (hB.double_nonpos 0 (le_refl 0)) (hB.double_nonneg 0 (le_refl 0))⟩

/-- In a binary arithmetic a pitch error inside the clamp range is a `float`,
so line 98 rounds its quotient by 4500 to `double` and then to `float`. -/
theorem extra_pitch_of_mem (fa : FloatArith) (hB : fa.Binary) (s : QuadPlane)
    (hr : |s.pitch_error_cd| ≤ 4500) :
    s.extra_pitch fa = fa.to_float (fa.to_double ((s.pitch_error_cd : ℚ) / 4500)) := by
  obtain ⟨hlo, hhi⟩ := abs_le.mp hr
  have hlo2 : (-4500 : ℚ) ≤ (s.pitch_error_cd : ℚ) := by exact_mod_cast hlo
  have hhi2 : (s.pitch_error_cd : ℚ) ≤ 4500 := by exact_mod_cast hhi
  unfold extra_pitch
  rw [hB.float_int _ (lt_of_le_of_lt hr (by norm_num)),
    constrain_float_of_mem _ _ _ hlo2 hhi2]

/-- In a binary arithmetic a pitch error of 0 gives a normalized error of 0. -/
theorem extra_pitch_zero (fa : FloatArith) (hB : fa.Binary) (s : QuadPlane)
    (h0 : s.pitch_error_cd = 0) : s.extra_pitch fa = 0 := by
  rw [extra_pitch_of_mem fa hB s (by rw [h0]; norm_num), h0]
  have : (((0 : Int) : ℚ)) / 4500 = 0 := by norm_num
  rw [this, (binary_zero fa hB).2, (binary_zero fa hB).1]

/-- With exponent 1 lines 99-100 multiply the normalized pitch error by 1 or
-1 times its magnitude, that is by itself, and then by 4500. -/
theorem extra_elevator_power_one (fa : FloatArith) (powf : ℚ → ℚ → ℚ) (s : QuadPlane)
    (hpow : powf (fabsf (s.extra_pitch fa)) 1 = fabsf (s.extra_pitch fa))
    (hp : s.tailsitter.vectored_hover_power = 1) :
    s.extra_elevator fa powf = fa.to_float (fa.to_float (s.extra_pitch fa) * 4500) := by
  unfold extra_elevator
  simp only [hp]
  rw [hpow]
  simp only [fabsf]
  by_cases hx : s.extra_pitch fa > 0
  · rw [if_pos hx, abs_of_pos hx, one_mul]
  · rw [if_neg hx, abs_of_nonpos (not_lt.mp hx)]
    have : (-1 : ℚ) * -s.extra_pitch fa = s.extra_pitch fa := by ring
    rw [this]

/-- At exponent 1 the binary32 `powf` returns a `float` argument. -/
theorem powf_binary32_one (x : ℚ) (hx : binary32 x = x) : powf_binary32 x 1 = x := by
  unfold powf_binary32
  have : ⌊(1 : ℚ)⌋ = 1 := by norm_num
  rw [this, zpow_one, hx]

/-- At exponent 2 the binary32 `powf` is the rounded square. -/
theorem powf_binary32_two (x : ℚ) : powf_binary32 x 2 = binary32 (x ^ 2) := by
  unfold powf_binary32
  have : ⌊(2 : ℚ)⌋ = 2 := by norm_num
  rw [this]
  norm_cast

/-- Line 98 in binary32 at a pitch error of 7: the `float` 0.0015555555. -/
theorem hoverError7_extra_pitch :
    hoverError7.pitch_error_cd = 7 ∧
    hoverError7.extra_pitch ieee_arith = 1670265 / 1073741824 := by
  have hpe : hoverError7.pitch_error_cd = 7 := by
    norm_num [pitch_error_cd, truncQ, hoverError7, fwState]
  have hd : binary64 (7 / 4500) = 7173733806442603 / 4611686018427387904 := by
    rw [binary64, round_to_precision_eq 53 (-1022) _ (-10) 7173733806442603
      (by norm_num [le_abs]) (by norm_num [abs_lt]) (by norm_num [abs_lt])]
    norm_num
  have hf : binary32 (7173733806442603 / 4611686018427387904) = 1670265 / 1073741824 := by
    rw [binary32, round_to_precision_eq 24 (-126) _ (-10) 13362120
      (by norm_num [le_abs]) (by norm_num [abs_lt]) (by norm_num [abs_lt])]
    norm_num
  refine ⟨hpe, ?_⟩
  rw [extra_pitch_of_mem ieee_arith ieee_arith_binary hoverError7 (by rw [hpe]; norm_num), hpe]
  show binary32 (binary64 (((7 : Int) : ℚ) / 4500)) = _
  have : (((7 : Int) : ℚ)) / 4500 = 7 / 4500 := by norm_num
  rw [this, hd, hf]

/-- Lines 99-100 in binary32 at a pitch error of 7 and exponent 1: the
`float` 6.9999995. -/
theorem hoverError7_extra_elevator :
    hoverError7.extra_elevator ieee_arith powf_binary32 = 14680063 / 2097152 := by
  have hxp := hoverError7_extra_pitch.2
  have hidem : binary32 (1670265 / 1073741824) = 1670265 / 1073741824 := by
    rw [binary32, round_to_precision_eq 24 (-126) _ (-10) 13362120
      (by norm_num [le_abs]) (by norm_num [abs_lt]) (by norm_num [abs_lt])]
    norm_num
  have hprod : binary32 (1670265 / 1073741824 * 4500) = 14680063 / 2097152 := by
    rw [binary32, round_to_precision_eq 24 (-126) _ 2 14680063
      (by norm_num [le_abs]) (by norm_num [abs_lt]) (by norm_num [abs_lt])]
    norm_num
  have hpow : powf_binary32 (fabsf (hoverError7.extra_pitch ieee_arith)) 1 =
      fabsf (hoverError7.extra_pitch ieee_arith) := by
    rw [hxp]
    have : fabsf (1670265 / 1073741824) = 1670265 / 1073741824 := by
      norm_num [fabsf, abs_of_pos]
    rw [this]
    exact powf_binary32_one _ hidem
  rw [extra_elevator_power_one ieee_arith powf_binary32 hoverError7 hpow rfl, hxp]
  show binary32 (binary32 (1670265 / 1073741824) * 4500) = _
  rw [hidem, hprod]

/-- C15 as stated fails in binary32: with exponent 1 and a pitch error of 7
the normalized error is the `float` 0.0015555555 and its `float` product with
4500 is 6.9999995 (14680063/2097152), not the clamped pitch error 7. -/
theorem extra_elevator_linear_counterexample :
    hoverError7.tailsitter.vectored_hover_power = 1 ∧
    hoverError7.pitch_error_cd = 7 ∧
    (∀ x : ℚ, binary32 x = x → powf_binary32 x 1 = x) ∧
    constrain_float (hoverError7.pitch_error_cd : ℚ) (-4500) 4500 = 7 ∧
    hoverError7.extra_pitch ieee_arith = 1670265 / 1073741824 ∧
    hoverError7.extra_elevator ieee_arith powf_binary32 = 14680063 / 2097152 ∧
    hoverError7.extra_elevator ieee_arith powf_binary32 ≠
      constrain_float (hoverError7.pitch_error_cd : ℚ) (-4500) 4500 := by
  have hpe := hoverError7_extra_pitch.1
  have hc : constrain_float (hoverError7.pitch_error_cd : ℚ) (-4500) 4500 = 7 := by
    rw [hpe]
    norm_num [constrain_float]
  refine ⟨rfl, hpe, powf_binary32_one, hc, hoverError7_extra_pitch.2,
    hoverError7_extra_elevator, ?_⟩
  rw [hoverError7_extra_elevator, hc]
  norm_num

/-- C15 amended: with `vectored_hover_power = 1`, for every pitch error the
extra elevator is the `float` product of 4500 and `x`, where `x` is the
`float` value that line 98 gives to `clamp(pitch_error_cd, -4500, 4500)/4500`
(the quotient rounded to `double` and then to `float`): linear in `x` with
slope 4500 up to one rounding, and 0 at `x = 0` and at a pitch error of 0. In exact arithmetic it equals
`clamp(pitch_error_cd, -4500, 4500)`. The C library `powf` is any function
that returns its first argument at exponent 1, on the nonnegative `float`
numbers in the first part and on the nonnegative rationals in the second. -/
theorem extra_elevator_linear (s : QuadPlane)
    (hp : s.tailsitter.vectored_hover_power = 1) :
    (∀ (fa : FloatArith) (powf : ℚ → ℚ → ℚ), fa.Binary →
      (∀ x : ℚ, 0 ≤ x → fa.to_float x = x → powf x 1 = x) →
      s.extra_elevator fa powf = fa.to_float (4500 * s.extra_pitch fa) ∧
      (|s.pitch_error_cd| < 2 ^ 24 →
        s.extra_pitch fa =
          fa.to_float
            (fa.to_double (constrain_float (s.pitch_error_cd : ℚ) (-4500) 4500 / 4500))) ∧
      (s.extra_pitch fa = 0 → s.extra_elevator fa powf = 0) ∧
      (s.pitch_error_cd = 0 → s.extra_elevator fa powf = 0)) ∧
    (∀ powf : ℚ → ℚ → ℚ, (∀ x : ℚ, 0 ≤ x → powf x 1 = x) →
      s.extra_elevator exact_arith powf =
        constrain_float (s.pitch_error_cd : ℚ) (-4500) 4500 ∧
      s.extra_elevator exact_arith powf =
        4500 * (constrain_float (s.pitch_error_cd : ℚ) (-4500) 4500 / 4500) ∧
      constrain_float (s.pitch_error_cd : ℚ) (-4500) 4500 =
        max (-4500) (min (s.pitch_error_cd : ℚ) 4500) ∧
      (s.pitch_error_cd = 0 → s.extra_elevator exact_arith powf = 0)) := by
  constructor
  · intro fa powf hB hpow
    have hidem : fa.to_float (s.extra_pitch fa) = s.extra_pitch fa := by
      unfold extra_pitch
      exact hB.float_idem _
    have habs : fa.to_float (fabsf (s.extra_pitch fa)) = fabsf (s.extra_pitch fa) := by
      unfold extra_pitch fabsf
      exact hB.float_abs _
    have key := extra_elevator_power_one fa powf s
      (hpow _ (abs_nonneg _) habs) hp
    have e1 : s.extra_elevator fa powf = fa.to_float (4500 * s.extra_pitch fa) := by
      rw [key, hidem, mul_comm]
    have e0 : s.extra_pitch fa = 0 → s.extra_elevator fa powf = 0 := by
      intro h0
      rw [e1, h0, mul_zero]
      exact (binary_zero fa hB).1
    have ex : |s.pitch_error_cd| < 2 ^ 24 →
        s.extra_pitch fa =
          fa.to_float
            (fa.to_double (constrain_float (s.pitch_error_cd : ℚ) (-4500) 4500 / 4500)) := by
      intro hlt
      unfold extra_pitch
      rw [hB.float_int _ hlt]
    exact ⟨e1, ex, e0, fun h0 => e0 (extra_pitch_zero fa hB s h0)⟩
  · intro powf hpow
    have keyE : s.extra_elevator exact_arith powf =
        constrain_float (s.pitch_error_cd : ℚ) (-4500) 4500 := by
      rw [extra_elevator_power_one exact_arith powf s (hpow _ (abs_nonneg _)) hp,
        extra_pitch_exact]
      show constrain_float (s.pitch_error_cd : ℚ) (-4500) 4500 / 4500 * 4500 = _
      field_simp
    refine ⟨keyE, ?_, constrain_float_eq_max_min _ _ _ (by norm_num), ?_⟩
    · rw [keyE]
      field_simp
    · intro h0
      rw [keyE, h0]
      norm_num [constrain_float]

/-- C15 amended at concrete states: in binary32 a pitch error of 7 gives the
`float` product of 4500 and 0.0015555555, which is 6.9999995; in exact
arithmetic it gives 7, and a pitch error of 1500 gives 1500. -/
theorem extra_elevator_linear_witness :
    hoverError7.extra_elevator ieee_arith powf_binary32 =
      binary32 (4500 * (1670265 / 1073741824)) ∧
    binary32 (4500 * (1670265 / 1073741824)) = 14680063 / 2097152 ∧
    hoverError7.extra_elevator exact_arith powf_integral = 7 ∧
    hoverError1500.extra_elevator exact_arith powf_integral = 1500 := by
  have hpow : ∀ x : ℚ, 0 ≤ x → powf_integral x 1 = x := by
    intro x _
    simp [powf_integral]
  have hpowF : ∀ x : ℚ, 0 ≤ x → ieee_arith.to_float x = x → powf_binary32 x 1 = x :=
    fun x _ hx => powf_binary32_one x hx
  have hpe := hoverError7_extra_pitch.1
  have he : hoverError1500.pitch_error_cd = 1500 := by
    norm_num [pitch_error_cd, truncQ, hoverError1500, fwState]
  have h1 := extra_elevator_linear hoverError7 rfl
  have h2 := extra_elevator_linear hoverError1500 rfl
  have h1F := (h1.1 ieee_arith powf_binary32 ieee_arith_binary hpowF).1
  rw [hoverError7_extra_pitch.2] at h1F
  refine ⟨h1F, ?_, ?_, ?_⟩
  · have h3 : binary32 (4500 * (1670265 / 1073741824)) =
        hoverError7.extra_elevator ieee_arith powf_binary32 := h1F.symm
    rw [h3]
    exact hoverError7_extra_elevator
  · rw [(h1.2 powf_integral hpow).1, hpe]
    norm_num [constrain_float]
  · rw [(h2.2 powf_integral hpow).1, he]
    norm_num [constrain_float]

/-- Rounding to `float` keeps a number on or above a power of 2 there. -/
theorem binary_float_ge (fa : FloatArith) (hB : fa.Binary) (w : ℚ) (k : Int)
    (hk1 : -126 ≤ k) (hk2 : k ≤ 127) (hw : (2 : ℚ) ^ k ≤ w) : (2 : ℚ) ^ k ≤ fa.to_float w := by
  have hpos : (0 : ℚ) < 2 ^ k := by positivity
  have h1 := hB.float_abs_ge w k hk1 hk2 (le_trans hw (le_abs_self w))
  have h2 := hB.float_nonneg w (by linarith)
  rwa [abs_of_nonneg h2] at h1

/-- Rounding to `float` keeps a number on or below minus a power of 2 there. -/
theorem binary_float_le (fa : FloatArith) (hB : fa.Binary) (w : ℚ) (k : Int)
    (hk1 : -126 ≤ k) (hk2 : k ≤ 127) (hw : w ≤ -(2 : ℚ) ^ k) :
    fa.to_float w ≤ -(2 : ℚ) ^ k := by
  have hpos : (0 : ℚ) < 2 ^ k := by positivity
  have hw0 : w ≤ 0 := by linarith
  have h1 := hB.float_abs_ge w k hk1 hk2 (by rw [abs_of_nonpos hw0]; linarith)
  have h2 := hB.float_nonpos w hw0
  rw [abs_of_nonpos h2] at h1
  linarith

/-- Inside the normal range a `float` multiplication by 4 is exact. -/
theorem binary_float_four_mul (fa : FloatArith) (hB : fa.Binary) (w : ℚ)
    (h1 : (2 : ℚ) ^ (-126 : Int) ≤ |w|) (h2 : |w| ≤ (2 : ℚ) ^ (125 : Int)) :
    fa.to_float (4 * w) = 4 * fa.to_float w := by
  have e : 4 * w = 2 * (2 * w) := by ring
  have a2 : |2 * w| = 2 * |w| := by
    rw [abs_mul]
    norm_num
  have hb : (2 : ℚ) ^ (126 : Int) = 2 * 2 ^ (125 : Int) := by
    rw [show (126 : Int) = 125 + 1 from rfl, zpow_add_one₀ (by norm_num : (2 : ℚ) ≠ 0)]
    ring
  have hn : (0 : ℚ) ≤ |w| := abs_nonneg w
  have hp : (0 : ℚ) < 2 ^ (125 : Int) := by positivity
  rw [e, hB.float_two_mul (2 * w) (by rw [a2]; linarith) (by rw [a2, hb]; linarith),
    hB.float_two_mul w h1 (by rw [hb]; linarith)]
  ring

/-- Doubling a nonzero pitch error inside the clamp range doubles the
normalized error of line 98 exactly, in every binary arithmetic; the
normalized error keeps the sign of the pitch error and has a magnitude
between `2^-13` and `1/2`. -/
theorem extra_pitch_two_mul (fa : FloatArith) (hB : fa.Binary) (s1 s2 : QuadPlane)
    (hq : s2.pitch_error_cd = 2 * s1.pitch_error_cd)
    (hr : |2 * s1.pitch_error_cd| ≤ 4500)
    (hne : s1.pitch_error_cd ≠ 0) :
    s2.extra_pitch fa = 2 * s1.extra_pitch fa ∧
    (2 : ℚ) ^ (-13 : Int) ≤ |s1.extra_pitch fa| ∧
    |s1.extra_pitch fa| ≤ (2 : ℚ) ^ (-1 : Int) ∧
    (0 < s1.pitch_error_cd → 0 < s1.extra_pitch fa) ∧
    (s1.pitch_error_cd < 0 → s1.extra_pitch fa < 0) := by
  have hr1 : |s1.pitch_error_cd| ≤ 2250 := by
    rw [abs_mul] at hr
    have : |(2 : Int)| = 2 := by norm_num
    rw [this] at hr
    omega
  have hr2 : |s2.pitch_error_cd| ≤ 4500 := by rw [hq]; exact hr
  have hge1 : 1 ≤ |s1.pitch_error_cd| := Int.one_le_abs hne
  have hq1 : (1 : ℚ) ≤ |(s1.pitch_error_cd : ℚ)| := by exact_mod_cast hge1
  have hq2 : |(s1.pitch_error_cd : ℚ)| ≤ 2250 := by exact_mod_cast hr1
  set y : ℚ := (s1.pitch_error_cd : ℚ) / 4500 with hy
  have hy2 : (s2.pitch_error_cd : ℚ) / 4500 = 2 * y := by
    rw [hq, hy]
    push_cast
    ring
  have hyabs : |y| = |(s1.pitch_error_cd : ℚ)| / 4500 := by
    rw [hy, abs_div]
    norm_num
  have hylo : (2 : ℚ) ^ (-13 : Int) ≤ |y| := by
    rw [hyabs]
    have : (2 : ℚ) ^ (-13 : Int) ≤ 1 / 4500 := by norm_num
    have h2 : (1 : ℚ) / 4500 ≤ |(s1.pitch_error_cd : ℚ)| / 4500 :=
      div_le_div_of_nonneg_right hq1 (by norm_num)
    linarith
  have hyhi : |y| ≤ (2 : ℚ) ^ (-1 : Int) := by
    rw [hyabs]
    have : (2 : ℚ) ^ (-1 : Int) = 2250 / 4500 := by norm_num
    rw [this]
    exact div_le_div_of_nonneg_right hq2 (by norm_num)
  have m1 : (2 : ℚ) ^ (-1022 : Int) ≤ 2 ^ (-13 : Int) :=
    zpow_le_zpow_right₀ (by norm_num) (by norm_num)
  have m2 : (2 : ℚ) ^ (-1 : Int) ≤ 2 ^ (1022 : Int) :=
    zpow_le_zpow_right₀ (by norm_num) (by norm_num)
  have m3 : (2 : ℚ) ^ (-126 : Int) ≤ 2 ^ (-13 : Int) :=
    zpow_le_zpow_right₀ (by norm_num) (by norm_num)
  have m4 : (2 : ℚ) ^ (-1 : Int) ≤ 2 ^ (126 : Int) :=
    zpow_le_zpow_right₀ (by norm_num) (by norm_num)
  have d2 : fa.to_double (2 * y) = 2 * fa.to_double y :=
    hB.double_two_mul y (le_trans m1 hylo) (le_trans hyhi m2)
  have dlo : (2 : ℚ) ^ (-13 : Int) ≤ |fa.to_double y| :=
    hB.double_abs_ge y (-13) (by norm_num) (by norm_num) hylo
  have dhi : |fa.to_double y| ≤ (2 : ℚ) ^ (-1 : Int) :=
    hB.double_abs_le y (-1) (by norm_num) (by norm_num) hyhi
  have f2 : fa.to_float (2 * fa.to_double y) = 2 * fa.to_float (fa.to_double y) :=
    hB.float_two_mul _ (le_trans m3 dlo) (le_trans dhi m4)
  have flo : (2 : ℚ) ^ (-13 : Int) ≤ |fa.to_float (fa.to_double y)| :=
    hB.float_abs_ge _ (-13) (by norm_num) (by norm_num) dlo
  have fhi : |fa.to_float (fa.to_double y)| ≤ (2 : ℚ) ^ (-1 : Int) :=
    hB.float_abs_le _ (-1) (by norm_num) (by norm_num) dhi
  have e1 : s1.extra_pitch fa = fa.to_float (fa.to_double y) :=
    extra_pitch_of_mem fa hB s1 (le_trans hr1 (by norm_num))
  have e2 : s2.extra_pitch fa = 2 * fa.to_float (fa.to_double y) := by
    rw [extra_pitch_of_mem fa hB s2 hr2, hy2, d2, f2]
  have hpos13 : (0 : ℚ) < 2 ^ (-13 : Int) := by positivity
  refine ⟨by rw [e2, e1], by rw [e1]; exact flo, by rw [e1]; exact fhi, ?_, ?_⟩
  · intro h
    have hqpos : (0 : ℚ) < (s1.pitch_error_cd : ℚ) := by exact_mod_cast h
    have hypos : 0 ≤ y := le_of_lt (div_pos hqpos (by norm_num))
    have hx := hB.float_nonneg _ (hB.double_nonneg y hypos)
    rw [e1]
    rw [abs_of_nonneg hx] at flo
    linarith
  · intro h
    have hqneg : (s1.pitch_error_cd : ℚ) < 0 := by exact_mod_cast h
    have hyneg : y ≤ 0 := le_of_lt (div_neg_of_neg_of_pos hqneg (by norm_num))
    have hx := hB.float_nonpos _ (hB.double_nonpos y hyneg)
    rw [e1]
    rw [abs_of_nonpos hx] at flo
    linarith

/-- With a normalized error of 0 and `powf(0, power) = 0` the extra elevator
is 0 in every binary arithmetic. -/
theorem extra_elevator_zero (fa : FloatArith) (hB : fa.Binary) (powf : ℚ → ℚ → ℚ)
    (s : QuadPlane) (hx : s.extra_pitch fa = 0)
    (h0 : powf 0 s.tailsitter.vectored_hover_power = 0) :
    s.extra_elevator fa powf = 0 := by
  unfold extra_elevator
  simp only [hx, fabsf, abs_zero, h0, mul_zero, zero_mul, (binary_zero fa hB).1]

/-- With exponent 2 and a pitch error inside the clamp range, the extra
elevator is `sign(q) * (q/4500)^2 * 4500` in exact arithmetic. -/
theorem extra_elevator_sq (powf : ℚ → ℚ → ℚ) (s : QuadPlane)
    (hpow : ∀ x : ℚ, 0 ≤ x → powf x 2 = x ^ 2)
    (hp : s.tailsitter.vectored_hover_power = 2)
    (hr : |s.pitch_error_cd| ≤ 4500) :
    s.extra_elevator exact_arith powf =
      (Int.sign s.pitch_error_cd : ℚ) * ((s.pitch_error_cd : ℚ) / 4500) ^ 2 * 4500 := by
  obtain ⟨hlo, hhi⟩ := abs_le.mp hr
  have hlo2 : (-4500 : ℚ) ≤ (s.pitch_error_cd : ℚ) := by exact_mod_cast hlo
  have hhi2 : (s.pitch_error_cd : ℚ) ≤ 4500 := by exact_mod_cast hhi
  have hxp : s.extra_pitch exact_arith = (s.pitch_error_cd : ℚ) / 4500 := by
    rw [extra_pitch_exact, constrain_float_of_mem _ _ _ hlo2 hhi2]
  unfold extra_elevator
  simp only [hp, fabsf, hxp]
  rw [hpow _ (abs_nonneg _), sq_abs]
  show (if (s.pitch_error_cd : ℚ) / 4500 > 0 then (1 : ℚ) else -1) *
    ((s.pitch_error_cd : ℚ) / 4500) ^ 2 * 4500 = _
  rcases lt_trichotomy s.pitch_error_cd 0 with h | h | h
  · have hq : (s.pitch_error_cd : ℚ) < 0 := by exact_mod_cast h
    have hx : ¬ (s.pitch_error_cd : ℚ) / 4500 > 0 := by
      apply not_lt.mpr
      apply div_nonpos_of_nonpos_of_nonneg (le_of_lt hq)
      norm_num
    rw [if_neg hx, Int.sign_eq_neg_one_of_neg h]
    norm_num
  · rw [h]
    norm_num
  · have hq : (0 : ℚ) < (s.pitch_error_cd : ℚ) := by exact_mod_cast h
    have hx : (s.pitch_error_cd : ℚ) / 4500 > 0 := div_pos hq (by norm_num)
    rw [if_pos hx, Int.sign_eq_one_of_pos h]
    norm_num

/-- The binary32 `powf` at exponent 2: it is 0 at 0, and on the magnitudes
between `2^-13` and `1/2` a doubled argument gives four times the result,
which lies between `2^-126` and 1. -/
theorem powf_binary32_sq :
    powf_binary32 0 2 = 0 ∧
    (∀ y : ℚ, ieee_arith.to_float y = y → (2 : ℚ) ^ (-13 : Int) ≤ y →
      y ≤ (2 : ℚ) ^ (-1 : Int) →
      powf_binary32 (2 * y) 2 = 4 * powf_binary32 y 2 ∧
      (2 : ℚ) ^ (-126 : Int) ≤ powf_binary32 y 2 ∧ powf_binary32 y 2 ≤ 1) := by
  constructor
  · rw [powf_binary32_two]
    norm_num [binary32, round_to_precision_zero]
  · intro y _ hlo hhi
    have hpos13 : (0 : ℚ) < 2 ^ (-13 : Int) := by positivity
    have hy0 : 0 < y := lt_of_lt_of_le hpos13 hlo
    have hsq0 : 0 ≤ y ^ 2 := by positivity
    have hsqlo : (2 : ℚ) ^ (-126 : Int) ≤ y ^ 2 := by
      have h1 : ((2 : ℚ) ^ (-13 : Int)) ^ 2 ≤ y ^ 2 :=
        pow_le_pow_left₀ (le_of_lt hpos13) hlo 2
      have h2 : (2 : ℚ) ^ (-126 : Int) ≤ ((2 : ℚ) ^ (-13 : Int)) ^ 2 := by
        rw [← zpow_natCast, ← zpow_mul]
        exact zpow_le_zpow_right₀ (by norm_num) (by norm_num)
      linarith
    have hsqhi : y ^ 2 ≤ (2 : ℚ) ^ (0 : Int) := by
      have h1 : y ^ 2 ≤ ((2 : ℚ) ^ (-1 : Int)) ^ 2 := pow_le_pow_left₀ (le_of_lt hy0) hhi 2
      have h2 : ((2 : ℚ) ^ (-1 : Int)) ^ 2 ≤ (2 : ℚ) ^ (0 : Int) := by norm_num
      linarith
    have habs : |y ^ 2| = y ^ 2 := abs_of_nonneg hsq0
    have h2abs : |2 * y ^ 2| = 2 * y ^ 2 := abs_of_nonneg (by positivity)
    have e : (2 * y) ^ 2 = 2 * (2 * y ^ 2) := by ring
    refine ⟨?_, ?_, ?_⟩
    · rw [powf_binary32_two, powf_binary32_two, e]
      unfold binary32
      rw [round_to_precision_two_mul 24 (-126) (2 * y ^ 2) (by rw [h2abs]; linarith),
        round_to_precision_two_mul 24 (-126) (y ^ 2) (by rw [habs]; exact hsqlo)]
      ring
    · rw [powf_binary32_two]
      have h1 := le_abs_round_to_precision 24 (by norm_num) (-126) (y ^ 2) (-126) (le_refl _)
        (by rw [habs]; exact hsqlo)
      have h2 := round_to_precision_nonneg 24 (-126) (y ^ 2) hsq0
      rw [abs_of_nonneg h2] at h1
      exact h1
    · rw [powf_binary32_two]
      have h1 := abs_round_to_precision_le 24 (by norm_num) (-126) (y ^ 2) 0 (by norm_num)
        (by rw [habs]; exact hsqhi)
      have h2 := round_to_precision_nonneg 24 (-126) (y ^ 2) hsq0
      rw [abs_of_nonneg h2] at h1
      simpa using h1

/-- Lines 98-100 in binary32 at a pitch error of -900 and exponent 2: the
normalized error is the `float` -0.2 (-13421773/67108864), its square rounds
to 0.040000003 and the extra elevator is -180.00002 (-11796481/65536). -/
theorem hoverSquareQ_extra_elevator :
    hoverSquareQ.pitch_error_cd = -900 ∧
    hoverSquareQ.extra_pitch ieee_arith = -13421773 / 67108864 ∧
    hoverSquareQ.extra_elevator ieee_arith powf_binary32 = -11796481 / 65536 := by
  have hpe : hoverSquareQ.pitch_error_cd = -900 := by
    norm_num [pitch_error_cd, truncQ, hoverSquareQ, fwState, Int.ceil_eq_iff]
  have hd : binary64 (-900 / 4500) = -3602879701896397 / 18014398509481984 := by
    rw [binary64, round_to_precision_eq 53 (-1022) _ (-3) (-7205759403792794)
      (by norm_num [le_abs]) (by norm_num [abs_lt]) (by norm_num [abs_lt])]
    norm_num
  have hf : binary32 (-3602879701896397 / 18014398509481984) = -13421773 / 67108864 := by
    rw [binary32, round_to_precision_eq 24 (-126) _ (-3) (-13421773)
      (by norm_num [le_abs]) (by norm_num [abs_lt]) (by norm_num [abs_lt])]
    norm_num
  have hxp : hoverSquareQ.extra_pitch ieee_arith = -13421773 / 67108864 := by
    rw [extra_pitch_of_mem ieee_arith ieee_arith_binary hoverSquareQ (by rw [hpe]; norm_num),
      hpe]
    show binary32 (binary64 (((-900 : Int) : ℚ) / 4500)) = _
    have : (((-900 : Int) : ℚ)) / 4500 = -900 / 4500 := by norm_num
    rw [this, hd, hf]
  have hsq : binary32 ((13421773 / 67108864 : ℚ) ^ 2) = 10737419 / 268435456 := by
    rw [binary32, round_to_precision_eq 24 (-126) _ (-5) 10737419
      (by norm_num [le_abs]) (by norm_num [abs_lt]) (by norm_num [abs_lt])]
    norm_num
  have hneg : binary32 (-1 * (10737419 / 268435456)) = -10737419 / 268435456 := by
    rw [binary32, round_to_precision_eq 24 (-126) _ (-5) (-10737419)
      (by norm_num [le_abs]) (by norm_num [abs_lt]) (by norm_num [abs_lt])]
    norm_num
  have hprod : binary32 (-10737419 / 268435456 * 4500) = -11796481 / 65536 := by
    rw [binary32, round_to_precision_eq 24 (-126) _ 7 (-11796481)
      (by norm_num [le_abs]) (by norm_num [abs_lt]) (by norm_num [abs_lt])]
    norm_num
  refine ⟨hpe, hxp, ?_⟩
  unfold extra_elevator
  rw [hxp]
  have hs : (if (-13421773 / 67108864 : ℚ) > 0 then (1 : ℚ) else -1) = -1 := by norm_num
  have ha : fabsf (-13421773 / 67108864) = 13421773 / 67108864 := by
    unfold fabsf
    rw [abs_of_neg (by norm_num)]
    norm_num
  have hpw : powf_binary32 (13421773 / 67108864)
      hoverSquareQ.tailsitter.vectored_hover_power = 10737419 / 268435456 := by
    show powf_binary32 (13421773 / 67108864) 2 = _
    rw [powf_binary32_two, hsq]
  simp only [hs, ha, hpw]
  show binary32 (binary32 (-1 * (10737419 / 268435456)) * 4500) = _
  rw [hneg, hprod]

/-- C16 as stated fails in binary32: with exponent 2 and a pitch error of
-900, inside the clamp range, the extra elevator is the `float` -180.00002
(-11796481/65536), not `sign(q) * (q/4500)^2 * 4500 = -180`. -/
theorem extra_elevator_quadratic_counterexample :
    hoverSquareQ.tailsitter.vectored_hover_power = 2 ∧
    hoverSquareQ.pitch_error_cd = -900 ∧
    |2 * hoverSquareQ.pitch_error_cd| ≤ 4500 ∧
    (∀ x : ℚ, powf_binary32 x 2 = binary32 (x ^ 2)) ∧
    hoverSquareQ.extra_elevator ieee_arith powf_binary32 = -11796481 / 65536 ∧
    (Int.sign hoverSquareQ.pitch_error_cd : ℚ) *
      ((hoverSquareQ.pitch_error_cd : ℚ) / 4500) ^ 2 * 4500 = -180 ∧
    hoverSquareQ.extra_elevator ieee_arith powf_binary32 ≠
      (Int.sign hoverSquareQ.pitch_error_cd : ℚ) *
        ((hoverSquareQ.pitch_error_cd : ℚ) / 4500) ^ 2 * 4500 := by
  obtain ⟨hpe, _, hx⟩ := hoverSquareQ_extra_elevator
  have hc : (Int.sign hoverSquareQ.pitch_error_cd : ℚ) *
      ((hoverSquareQ.pitch_error_cd : ℚ) / 4500) ^ 2 * 4500 = -180 := by
    rw [hpe, show Int.sign (-900) = -1 from rfl]
    norm_num
  refine ⟨rfl, hpe, by rw [hpe]; norm_num, powf_binary32_two, hx, hc, ?_⟩
  rw [hx, hc]
  norm_num

/-- C16 amended: with `vectored_hover_power = 2`, for pitch errors `q` and
`2q` with `|2q| <= 4500`, the extra elevator at `2q` is exactly four times
the one at `q`, so has four times its magnitude, and has the sign of `q`.
This holds in every binary floating-point arithmetic, for every `powf` that
is 0 at 0 and on the `float` magnitudes between `2^-13` and `1/2` gives four
times the result for a doubled argument, with a result between `2^-126` and
1. The closed form `sign(q) * (q/4500)^2 * 4500` holds in exact arithmetic
with `powf(x, 2) = x^2`, not in binary32. -/
theorem extra_elevator_quadratic (s1 s2 : QuadPlane)
    (hp1 : s1.tailsitter.vectored_hover_power = 2)
    (hp2 : s2.tailsitter.vectored_hover_power = 2)
    (hq : s2.pitch_error_cd = 2 * s1.pitch_error_cd)
    (hr : |2 * s1.pitch_error_cd| ≤ 4500) :
    (∀ (fa : FloatArith) (powf : ℚ → ℚ → ℚ), fa.Binary → powf 0 2 = 0 →
      (∀ y : ℚ, fa.to_float y = y → (2 : ℚ) ^ (-13 : Int) ≤ y → y ≤ (2 : ℚ) ^ (-1 : Int) →
        powf (2 * y) 2 = 4 * powf y 2 ∧
        (2 : ℚ) ^ (-126 : Int) ≤ powf y 2 ∧ powf y 2 ≤ 1) →
      s2.extra_elevator fa powf = 4 * s1.extra_elevator fa powf ∧
      |s2.extra_elevator fa powf| = 4 * |s1.extra_elevator fa powf| ∧
      (0 < s1.pitch_error_cd → 0 < s2.extra_elevator fa powf) ∧
      (s1.pitch_error_cd < 0 → s2.extra_elevator fa powf < 0)) ∧
    (∀ powf : ℚ → ℚ → ℚ, (∀ x : ℚ, 0 ≤ x → powf x 2 = x ^ 2) →
      |s2.extra_elevator exact_arith powf| = 4 * |s1.extra_elevator exact_arith powf| ∧
      (0 < s1.pitch_error_cd → 0 < s2.extra_elevator exact_arith powf) ∧
      (s1.pitch_error_cd < 0 → s2.extra_elevator exact_arith powf < 0) ∧
      s1.extra_elevator exact_arith powf =
        (Int.sign s1.pitch_error_cd : ℚ) * ((s1.pitch_error_cd : ℚ) / 4500) ^ 2 * 4500 ∧
      s2.extra_elevator exact_arith powf =
        (Int.sign s2.pitch_error_cd : ℚ) * ((s2.pitch_error_cd : ℚ) / 4500) ^ 2 * 4500) := by
  have hr1 : |s1.pitch_error_cd| ≤ 4500 := by
    rw [abs_mul] at hr
    have : |(2 : Int)| = 2 := by norm_num
    rw [this] at hr
    have h0 : 0 ≤ |s1.pitch_error_cd| := abs_nonneg _
    omega
  have hr2 : |s2.pitch_error_cd| ≤ 4500 := by rw [hq]; exact hr
  constructor
  · intro fa powf hB h0 hpw
    by_cases hne : s1.pitch_error_cd = 0
    · have hne2 : s2.pitch_error_cd = 0 := by rw [hq, hne]; rfl
      have z1 := extra_elevator_zero fa hB powf s1 (extra_pitch_zero fa hB s1 hne)
        (by rw [hp1]; exact h0)
      have z2 := extra_elevator_zero fa hB powf s2 (extra_pitch_zero fa hB s2 hne2)
        (by rw [hp2]; exact h0)
      rw [z1, z2]
      refine ⟨by norm_num, by norm_num, ?_, ?_⟩
      · intro h
        omega
      · intro h
        omega
    · obtain ⟨hx2, hxlo, hxhi, hxpos, hxneg⟩ := extra_pitch_two_mul fa hB s1 s2 hq hr hne
      set x := s1.extra_pitch fa with hx
      have hpos13 : (0 : ℚ) < 2 ^ (-13 : Int) := by positivity
      have hpos126 : (0 : ℚ) < 2 ^ (-126 : Int) := by positivity
      have hxabs : fa.to_float |x| = |x| := by
        rw [hx]
        unfold extra_pitch
        exact hB.float_abs _
      obtain ⟨p4, plo, phi⟩ := hpw |x| hxabs hxlo hxhi
      set P := powf |x| 2 with hP
      have hPpos : 0 < P := lt_of_lt_of_le hpos126 plo
      have h125 : (1 : ℚ) ≤ 2 ^ (125 : Int) := by
        have : (2 : ℚ) ^ (0 : Int) ≤ 2 ^ (125 : Int) :=
          zpow_le_zpow_right₀ (by norm_num) (by norm_num)
        simpa using this
      have h4500 : (4500 : ℚ) ≤ 2 ^ (125 : Int) := by
        have : (2 : ℚ) ^ (13 : Int) ≤ 2 ^ (125 : Int) :=
          zpow_le_zpow_right₀ (by norm_num) (by norm_num)
        have h13 : (4500 : ℚ) ≤ 2 ^ (13 : Int) := by norm_num
        linarith
      -- the two calls share the sign and differ by the factor 4 in `powf`
      have key : ∀ sg : ℚ, |sg| = 1 →
          fa.to_float (fa.to_float (sg * (4 * P)) * 4500) =
            4 * fa.to_float (fa.to_float (sg * P) * 4500) ∧
          (2 : ℚ) ^ (-126 : Int) ≤ |fa.to_float (fa.to_float (sg * P) * 4500)| := by
        intro sg hsg
        have hw : |sg * P| = P := by rw [abs_mul, hsg, one_mul, abs_of_pos hPpos]
        have f4 : fa.to_float (sg * (4 * P)) = 4 * fa.to_float (sg * P) := by
          have : sg * (4 * P) = 4 * (sg * P) := by ring
          rw [this]
          exact binary_float_four_mul fa hB _ (by rw [hw]; exact plo)
            (by rw [hw]; linarith)
        have ilo : (2 : ℚ) ^ (-126 : Int) ≤ |fa.to_float (sg * P)| :=
          hB.float_abs_ge _ (-126) (by norm_num) (by norm_num) (by rw [hw]; exact plo)
        have ihi : |fa.to_float (sg * P)| ≤ 1 := by
          have := hB.float_abs_le (sg * P) 0 (by norm_num) (by norm_num)
            (by rw [hw]; simpa using phi)
          simpa using this
        have habs : |fa.to_float (sg * P) * 4500| = |fa.to_float (sg * P)| * 4500 := by
          rw [abs_mul]
          norm_num
        have hlo4500 : (2 : ℚ) ^ (-126 : Int) ≤ |fa.to_float (sg * P) * 4500| := by
          rw [habs]
          nlinarith [abs_nonneg (fa.to_float (sg * P))]
        have hhi4500 : |fa.to_float (sg * P) * 4500| ≤ 2 ^ (125 : Int) := by
          rw [habs]
          nlinarith [abs_nonneg (fa.to_float (sg * P))]
        constructor
        · rw [f4]
          have : 4 * fa.to_float (sg * P) * 4500 = 4 * (fa.to_float (sg * P) * 4500) := by
            ring
          rw [this]
          exact binary_float_four_mul fa hB _ hlo4500 hhi4500
        · exact hB.float_abs_ge _ (-126) (by norm_num) (by norm_num) hlo4500
      have hx2abs : |2 * x| = 2 * |x| := by
        rw [abs_mul]
        norm_num
      have hsame : (2 * x > 0) ↔ (x > 0) := by
        constructor
        · intro h
          linarith
        · intro h
          linarith
      have E1 : s1.extra_elevator fa powf =
          fa.to_float (fa.to_float ((if x > 0 then (1 : ℚ) else -1) * P) * 4500) := by
        unfold extra_elevator
        simp only [hp1, fabsf]
      have E2 : s2.extra_elevator fa powf =
          fa.to_float (fa.to_float ((if x > 0 then (1 : ℚ) else -1) * (4 * P)) * 4500) := by
        unfold extra_elevator
        simp only [hp2, fabsf, hx2, hx2abs, p4, hsame]
      have hsg : |(if x > 0 then (1 : ℚ) else -1)| = 1 := by
        split_ifs <;> norm_num
      obtain ⟨k1, k2⟩ := key _ hsg
      have e21 : s2.extra_elevator fa powf = 4 * s1.extra_elevator fa powf := by
        rw [E1, E2]
        exact k1
      refine ⟨e21, ?_, ?_, ?_⟩
      · rw [e21, abs_mul]
        norm_num
      · intro h
        have hxp := hxpos h
        have hv : 0 ≤ s1.extra_elevator fa powf := by
          rw [E1, if_pos hxp, one_mul]
          apply hB.float_nonneg
          exact mul_nonneg (hB.float_nonneg _ (le_of_lt hPpos)) (by norm_num)
        rw [← E1, abs_of_nonneg hv] at k2
        rw [e21]
        linarith
      · intro h
        have hxn := hxneg h
        have hv : s1.extra_elevator fa powf ≤ 0 := by
          rw [E1, if_neg (not_lt.mpr (le_of_lt hxn))]
          apply hB.float_nonpos
          exact mul_nonpos_of_nonpos_of_nonneg
            (hB.float_nonpos _ (by linarith)) (by norm_num)
        rw [← E1, abs_of_nonpos hv] at k2
        rw [e21]
        linarith
  · intro powf hpow
    have e1 := extra_elevator_sq powf s1 hpow hp1 hr1
    have e2 := extra_elevator_sq powf s2 hpow hp2 hr2
    refine ⟨?_, ?_, ?_, e1, e2⟩
    · rw [e1, e2, hq]
      rcases lt_trichotomy s1.pitch_error_cd 0 with h | h | h
      · have h2 : 2 * s1.pitch_error_cd < 0 := by omega
        rw [Int.sign_eq_neg_one_of_neg h, Int.sign_eq_neg_one_of_neg h2]
        push_cast
        rw [abs_mul, abs_mul, abs_mul, abs_mul]
        simp only [abs_neg, abs_one, one_mul, abs_sq]
        rw [abs_of_pos (by norm_num : (0 : ℚ) < 4500)]
        ring
      · rw [h]
        norm_num
      · have h2 : 0 < 2 * s1.pitch_error_cd := by omega
        rw [Int.sign_eq_one_of_pos h, Int.sign_eq_one_of_pos h2]
        push_cast
        rw [abs_mul, abs_mul, abs_mul, abs_mul]
        simp only [abs_one, one_mul, abs_sq]
        rw [abs_of_pos (by norm_num : (0 : ℚ) < 4500)]
        ring
    · intro h
      have h2 : 0 < s2.pitch_error_cd := by omega
      have hq2 : (0 : ℚ) < (s2.pitch_error_cd : ℚ) := by exact_mod_cast h2
      rw [e2, Int.sign_eq_one_of_pos h2]
      push_cast
      positivity
    · intro h
      have h2 : s2.pitch_error_cd < 0 := by omega
      have hq2 : (s2.pitch_error_cd : ℚ) < 0 := by exact_mod_cast h2
      have hne : (s2.pitch_error_cd : ℚ) ≠ 0 := ne_of_lt hq2
      have hsq : 0 < ((s2.pitch_error_cd : ℚ) / 4500) ^ 2 := by positivity
      rw [e2, Int.sign_eq_neg_one_of_neg h2]
      push_cast
      nlinarith

/-- C16 amended at concrete states: with exponent 2, in binary32 a pitch
error of -900 gives an extra elevator of -180.00002 (-11796481/65536) and a
pitch error of -1800 gives four times that, -720.00006 (-11796481/16384),
negative like the pitch error; in exact arithmetic they give -180 and -720. -/
theorem extra_elevator_quadratic_witness :
    hoverSquareQ.pitch_error_cd = -900 ∧
    hoverSquare2Q.pitch_error_cd = -1800 ∧
    hoverSquareQ.extra_elevator ieee_arith powf_binary32 = -11796481 / 65536 ∧
    hoverSquare2Q.extra_elevator ieee_arith powf_binary32 = -11796481 / 16384 ∧
    hoverSquare2Q.extra_elevator ieee_arith powf_binary32 < 0 ∧
    hoverSquareQ.extra_elevator exact_arith powf_integral = -180 ∧
    hoverSquare2Q.extra_elevator exact_arith powf_integral = -720 := by
  have hpow : ∀ x : ℚ, 0 ≤ x → powf_integral x 2 = x ^ 2 := by
    intro x _
    simp [powf_integral]
    norm_cast
  obtain ⟨hq1, _, hx1⟩ := hoverSquareQ_extra_elevator
  have hq2 : hoverSquare2Q.pitch_error_cd = -1800 := by
    norm_num [pitch_error_cd, truncQ, hoverSquare2Q, fwState, Int.ceil_eq_iff]
  have h := extra_elevator_quadratic hoverSquareQ hoverSquare2Q rfl rfl
    (by rw [hq1, hq2]; norm_num) (by rw [hq1]; norm_num)
  have hF := h.1 ieee_arith powf_binary32 ieee_arith_binary powf_binary32_sq.1
    powf_binary32_sq.2
  have hE := h.2 powf_integral hpow
  refine ⟨hq1, hq2, hx1, ?_, hF.2.2.2 (by rw [hq1]; norm_num), ?_, ?_⟩
  · rw [hF.1, hx1]
    norm_num
  · rw [hE.2.2.2.1, hq1, show Int.sign (-900) = -1 from rfl]
    norm_num
  · rw [hE.2.2.2.2, hq2, show Int.sign (-1800) = -1 from rfl]
    norm_num

/-- The prop-hang override writes the aileron, elevator, throttle and rudder
outputs only. -/
theorem input_mask_override_srv_other (s : QuadPlane) (f : Aux_servo_function_t)
    (h1 : f ≠ .k_aileron) (h2 : f ≠ .k_elevator) (h3 : f ≠ .k_throttle)
    (h4 : f ≠ .k_rudder) : s.input_mask_override.srv f = s.srv f := by
  unfold input_mask_override
  by_cases ht : s.input_mask_triggered = true
  · simp only [ht, if_true, pass_through_srv, h1, h2, h3, h4, and_false, if_false]
  · simp [ht]

/-- With a positive hover gain the hover vectoring block writes the computed
tilts. -/
theorem hover_vectoring_tilt (fa : FloatArith) (powf : ℚ → ℚ → ℚ) (s : QuadPlane)
    (hg : 0 < s.tailsitter.vectored_hover_gain) :
    (s.hover_vectoring fa powf).srv .k_tiltMotorLeft = s.hover_tilt_left fa powf ∧
    (s.hover_vectoring fa powf).srv .k_tiltMotorRight = s.hover_tilt_right fa powf := by
  have hg2 : s.tailsitter.vectored_hover_gain > 0 := hg
  unfold hover_vectoring
  by_cases hs : fabsf (s.hover_tilt_left fa powf) ≥ 4500 ∨ fabsf (s.hover_tilt_right fa powf) ≥ 4500
  · simp [if_pos hg2, if_pos hs, set_output_scaled]
  · simp [if_pos hg2, if_neg hs, set_output_scaled]

/-- With a hover gain of 0 or less the hover vectoring block does nothing. -/
theorem hover_vectoring_off (fa : FloatArith) (powf : ℚ → ℚ → ℚ) (s : QuadPlane)
    (hg : s.tailsitter.vectored_hover_gain ≤ 0) : s.hover_vectoring fa powf = s := by
  unfold hover_vectoring
  rw [if_neg (not_lt.mpr hg)]

/-- Extent of the behaviour evaluated for C17: the extra elevator is the
`float` value of `sign(x) * powf(|x|, power) * 4500` with `sign(0) = 0`
whenever the normalized pitch error `x` of line 98 is not 0 or
`powf(0, power) = 0`. -/
theorem extra_elevator_signed_power (fa : FloatArith) (powf : ℚ → ℚ → ℚ) (s : QuadPlane)
    (h : s.extra_pitch fa ≠ 0 ∨ powf 0 s.tailsitter.vectored_hover_power = 0) :
    s.extra_elevator fa powf =
      fa.to_float
        (fa.to_float ((SignType.sign (s.extra_pitch fa) : ℚ) *
          powf |s.extra_pitch fa| s.tailsitter.vectored_hover_power) * 4500) := by
  unfold extra_elevator
  simp only [fabsf]
  rcases lt_trichotomy (s.extra_pitch fa) 0 with hx | hx | hx
  · rw [if_neg (not_lt.mpr (le_of_lt hx)), sign_neg hx]
    simp
  · rcases h with h | h
    · exact absurd hx h
    · rw [hx]
      simp [h]
  · rw [if_pos hx, sign_pos hx]
    simp

/-- C17 at the failing input: a hovering tailsitter with hover gain 1/10,
exponent 0, commanded pitch equal to measured pitch, aileron 300 and elevator
-200. The pitch error is 0, `powf(0, 0)` is 1 and line 99 takes the sign of 0
as -1, so the extra elevator is -4500, the tilt outputs are -4490 and -4550
instead of 10 and -50, and both limit flags are raised. The same holds in
binary32 with the hover gain 0.1f. -/
theorem extra_elevator_power_zero_level :
    hoverPowerZero.pitch_error_cd = 0 ∧
    powf_integral 0 0 = 1 ∧
    hoverPowerZero.extra_elevator exact_arith powf_integral = -4500 ∧
    (tailsitter_output exact_arith id powf_integral hoverPowerZero).srv .k_tiltMotorLeft = -4490 ∧
    (tailsitter_output exact_arith id powf_integral hoverPowerZero).srv .k_tiltMotorRight = -4550 ∧
    (hoverPowerZero.srv .k_elevator + hoverPowerZero.srv .k_aileron) *
      hoverPowerZero.tailsitter.vectored_hover_gain = 10 ∧
    (hoverPowerZero.srv .k_elevator - hoverPowerZero.srv .k_aileron) *
      hoverPowerZero.tailsitter.vectored_hover_gain = -50 ∧
    (tailsitter_output exact_arith id powf_integral hoverPowerZero).limit =
      { roll_pitch := true, yaw := true } ∧
    hoverPowerZeroF.extra_elevator ieee_arith powf_integral = -4500 ∧
    (tailsitter_output ieee_arith id powf_integral hoverPowerZeroF).srv .k_tiltMotorLeft = -4490 ∧
    (tailsitter_output ieee_arith id powf_integral hoverPowerZeroF).srv .k_tiltMotorRight = -4550 ∧
    (tailsitter_output ieee_arith id powf_integral hoverPowerZeroF).limit =
      { roll_pitch := true, yaw := true } := by
  have hpe : hoverPowerZero.pitch_error_cd = 0 := by
    norm_num [pitch_error_cd, truncQ, hoverPowerZero, fwDeflected, fwState]
  have hx : hoverPowerZero.extra_elevator exact_arith powf_integral = -4500 := by
    unfold extra_elevator extra_pitch
    rw [hpe]
    norm_num [exact_arith, constrain_float, fabsf, powf_integral, hoverPowerZero, fwDeflected,
      fwState]
  have hpath := tailsitter_output_vtol_path exact_arith id powf_integral hoverPowerZero
    (by decide) (by decide)
  have hg : 0 < (id hoverPowerZero).reset_I.tailsitter.vectored_hover_gain := by
    norm_num [reset_I, hoverPowerZero, fwState]
  have hx2 : (id hoverPowerZero).reset_I.extra_elevator exact_arith powf_integral = -4500 := hx
  have hl : (id hoverPowerZero).reset_I.hover_tilt_left exact_arith powf_integral = -4490 := by
    unfold hover_tilt_left
    rw [hx2]
    norm_num [exact_arith, get_output_scaled, reset_I, hoverPowerZero, fwDeflected, fwState]
  have hr : (id hoverPowerZero).reset_I.hover_tilt_right exact_arith powf_integral = -4550 := by
    unfold hover_tilt_right
    rw [hx2]
    norm_num [exact_arith, get_output_scaled, reset_I, hoverPowerZero, fwDeflected, fwState]
  have htilt := hover_vectoring_tilt exact_arith powf_integral (id hoverPowerZero).reset_I hg
  -- binary32
  have hpeF : hoverPowerZeroF.pitch_error_cd = 0 := hpe
  have hxpF : hoverPowerZeroF.extra_pitch ieee_arith = 0 := by
    unfold extra_pitch
    rw [hpeF]
    norm_num [ieee_arith, binary32, binary64, round_to_precision_zero, constrain_float]
  have hm1 : binary32 (-1) = -1 := by
    have := binary32_intCast (-1) (by norm_num)
    simpa using this
  have hm4500 : binary32 (-1 * 4500) = -4500 := by
    have := binary32_intCast (-4500) (by norm_num)
    norm_num at this ⊢
    exact this
  have hxF : hoverPowerZeroF.extra_elevator ieee_arith powf_integral = -4500 := by
    unfold extra_elevator
    rw [hxpF]
    have hs : (if (0 : ℚ) > 0 then (1 : ℚ) else -1) = -1 := by norm_num
    have hp0 : powf_integral (fabsf 0) hoverPowerZeroF.tailsitter.vectored_hover_power = 1 := by
      simp [powf_integral, hoverPowerZeroF, hoverPowerZero, fwState]
    simp only [hs, hp0]
    show binary32 (binary32 (-1 * 1) * 4500) = -4500
    rw [mul_one, hm1, hm4500]
  have hpathF := tailsitter_output_vtol_path ieee_arith id powf_integral hoverPowerZeroF
    (by decide) (by decide)
  have hgF : 0 < (id hoverPowerZeroF).reset_I.tailsitter.vectored_hover_gain := by
    norm_num [reset_I, hoverPowerZeroF, hoverPowerZero, fwState]
  have hx2F : (id hoverPowerZeroF).reset_I.extra_elevator ieee_arith powf_integral = -4500 :=
    hxF
  have h100 : binary32 (-200 + 300) = 100 := by
    have := binary32_intCast 100 (by norm_num)
    norm_num at this ⊢
    exact this
  have h500 : binary32 (-200 - 300) = -500 := by
    have := binary32_intCast (-500) (by norm_num)
    norm_num at this ⊢
    exact this
  have h10 : binary32 (100 * (13421773 / 134217728)) = 10 := by
    rw [binary32, round_to_precision_eq 24 (-126) _ 3 10485760
      (by norm_num [le_abs]) (by norm_num [abs_lt]) (by norm_num [abs_lt])]
    norm_num
  have h50 : binary32 (-500 * (13421773 / 134217728)) = -50 := by
    rw [binary32, round_to_precision_eq 24 (-126) _ 5 (-13107200)
      (by norm_num [le_abs]) (by norm_num [abs_lt]) (by norm_num [abs_lt])]
    norm_num
  have h4490 : binary32 (-4500 + 10) = -4490 := by
    have := binary32_intCast (-4490) (by norm_num)
    norm_num at this ⊢
    exact this
  have h4550 : binary32 (-4500 + -50) = -4550 := by
    have := binary32_intCast (-4550) (by norm_num)
    norm_num at this ⊢
    exact this
  have hlF : (id hoverPowerZeroF).reset_I.hover_tilt_left ieee_arith powf_integral = -4490 := by
    unfold hover_tilt_left
    rw [hx2F]
    show binary32 (-4500 + binary32 (binary32 (-200 + 300) * (13421773 / 134217728))) = -4490
    rw [h100, h10, h4490]
  have hrF : (id hoverPowerZeroF).reset_I.hover_tilt_right ieee_arith powf_integral = -4550 := by
    unfold hover_tilt_right
    rw [hx2F]
    show binary32 (-4500 + binary32 (binary32 (-200 - 300) * (13421773 / 134217728))) = -4550
    rw [h500, h50, h4550]
  have htiltF := hover_vectoring_tilt ieee_arith powf_integral (id hoverPowerZeroF).reset_I hgF
  refine ⟨hpe, by simp [powf_integral], hx, ?_, ?_, ?_, ?_, ?_, hxF, ?_, ?_, ?_⟩
  · rw [hpath, input_mask_override_srv_other _ _ (by simp) (by simp) (by simp) (by simp),
      htilt.1, hl]
  · rw [hpath, input_mask_override_srv_other _ _ (by simp) (by simp) (by simp) (by simp),
      htilt.2, hr]
  · norm_num [hoverPowerZero, fwDeflected, fwState]
  · norm_num [hoverPowerZero, fwDeflected, fwState]
  · have hc : 0 < (id hoverPowerZero).reset_I.tailsitter.vectored_hover_gain ∧
        (4500 ≤ |(id hoverPowerZero).reset_I.hover_tilt_left exact_arith powf_integral| ∨
          4500 ≤ |(id hoverPowerZero).reset_I.hover_tilt_right exact_arith powf_integral|) := by
      refine ⟨hg, Or.inr ?_⟩
      rw [hr]
      norm_num
    rw [hpath, (input_mask_override_frame _).1, hover_vectoring_limit, if_pos hc]
  · rw [hpathF, input_mask_override_srv_other _ _ (by simp) (by simp) (by simp) (by simp),
      htiltF.1, hlF]
  · rw [hpathF, input_mask_override_srv_other _ _ (by simp) (by simp) (by simp) (by simp),
      htiltF.2, hrF]
  · have hc : 0 < (id hoverPowerZeroF).reset_I.tailsitter.vectored_hover_gain ∧
        (4500 ≤ |(id hoverPowerZeroF).reset_I.hover_tilt_left ieee_arith powf_integral| ∨
          4500 ≤ |(id hoverPowerZeroF).reset_I.hover_tilt_right ieee_arith powf_integral|) := by
      refine ⟨hgF, Or.inr ?_⟩
      rw [hrF]
      norm_num
    rw [hpathF, (input_mask_override_frame _).1, hover_vectoring_limit, if_pos hc]

/-! ### Integrator resets and the disabled hover vectoring -/

/-- C18: on the active VTOL path (`tailsitter_active()` true,
`in_tailsitter_vtol_transition()` false) the pitch and roll controller
integrators are reset and the result is computed from the state
`motors_output()` returns; on the fixed wing / transitioning-to-VTOL path
neither integrator changes and the result is the same for every
`motors_output`, which is not invoked. -/
theorem integrators_reset_iff_vtol_path (fa : FloatArith) (motors_output : QuadPlane → QuadPlane)
    (powf : ℚ → ℚ → ℚ) (s : QuadPlane) :
    (s.tailsitter_active = true → s.in_tailsitter_vtol_transition = false →
      (tailsitter_output fa motors_output powf s).pitchController_I = 0 ∧
      (tailsitter_output fa motors_output powf s).rollController_I = 0 ∧
      tailsitter_output fa motors_output powf s =
        (((motors_output s).reset_I).hover_vectoring fa powf).input_mask_override) ∧
    (s.is_tailsitter = true →
      (s.tailsitter_active = false ∨ s.in_tailsitter_vtol_transition = true) →
      (tailsitter_output fa motors_output powf s).pitchController_I = s.pitchController_I ∧
      (tailsitter_output fa motors_output powf s).rollController_I = s.rollController_I ∧
      ∀ other : QuadPlane → QuadPlane,
        tailsitter_output fa other powf s = tailsitter_output fa motors_output powf s) := by
  constructor
  · intro ha hv
    have hpath := tailsitter_output_vtol_path fa motors_output powf s ha hv
    obtain ⟨_, hp, hr⟩ :=
      input_mask_override_frame ((motors_output s).reset_I.hover_vectoring fa powf)
    obtain ⟨_, _, _, _, _, _, _, hp2, hr2⟩ := hover_vectoring_frame fa powf (motors_output s).reset_I
    refine ⟨?_, ?_, hpath⟩
    · rw [hpath, hp, hp2]
      rfl
    · rw [hpath, hr, hr2]
      rfl
  · intro ht hp
    have hpath := tailsitter_output_fw_path fa motors_output powf s ht hp
    obtain ⟨_, _, _, hpi, hri⟩ := forward_vectoring_frame fa s
    refine ⟨?_, ?_, ?_⟩
    · rw [hpath]
      split
      · simp only [hover_throttle_preset, set_output_scaled]
        exact hpi
      · exact hpi
    · rw [hpath]
      split
      · simp only [hover_throttle_preset, set_output_scaled]
        exact hri
      · exact hri
    · intro other
      rw [hpath, tailsitter_output_fw_path fa other powf s ht hp]

/-- C18 at concrete states: integrators 5 and 7 become 0 and 0 for a hovering
tailsitter, where the flags raised by `motors_output` show in the result, and
stay 5 and 7 in steady fixed wing flight, where they do not. -/
theorem integrators_reset_iff_vtol_path_witness :
    ((tailsitter_output exact_arith motors_output_saturating powf_integral hoverWound).pitchController_I
        = 0 ∧
      (tailsitter_output exact_arith motors_output_saturating powf_integral hoverWound).rollController_I
        = 0) ∧
    ((tailsitter_output exact_arith motors_output_saturating powf_integral fwWound).pitchController_I
        = 5 ∧
      (tailsitter_output exact_arith motors_output_saturating powf_integral fwWound).rollController_I
        = 7 ∧
      tailsitter_output exact_arith id powf_integral fwWound =
        tailsitter_output exact_arith motors_output_saturating powf_integral fwWound) := by
  have h1 := (integrators_reset_iff_vtol_path exact_arith motors_output_saturating powf_integral
    hoverWound).1 (by decide) (by decide)
  have h2 := (integrators_reset_iff_vtol_path exact_arith motors_output_saturating powf_integral
    fwWound).2 (by decide) (Or.inl (by decide))
  exact ⟨⟨h1.1, h1.2.1⟩, ⟨h2.1, h2.2.1, h2.2.2 id⟩⟩

/-- C19: on the active VTOL path with `vectored_hover_gain <= 0` the mixer
writes neither tilt output and neither limit flag: after the call they are
what `motors_output()` left, whatever the aileron, elevator and pitch error
are. -/
theorem hover_vectoring_disabled (fa : FloatArith) (motors_output : QuadPlane → QuadPlane)
    (powf : ℚ → ℚ → ℚ) (s : QuadPlane) (ha : s.tailsitter_active = true)
    (hv : s.in_tailsitter_vtol_transition = false)
    (hg : (motors_output s).tailsitter.vectored_hover_gain ≤ 0) :
    (tailsitter_output fa motors_output powf s).srv .k_tiltMotorLeft =
      (motors_output s).srv .k_tiltMotorLeft ∧
    (tailsitter_output fa motors_output powf s).srv .k_tiltMotorRight =
      (motors_output s).srv .k_tiltMotorRight ∧
    (tailsitter_output fa motors_output powf s).limit = (motors_output s).limit := by
  have hg2 : (motors_output s).reset_I.tailsitter.vectored_hover_gain ≤ 0 := hg
  rw [tailsitter_output_vtol_path fa motors_output powf s ha hv,
    hover_vectoring_off fa powf _ hg2]
  refine ⟨?_, ?_, ?_⟩
  · rw [input_mask_override_srv_other _ _ (by simp) (by simp) (by simp) (by simp)]
    rfl
  · rw [input_mask_override_srv_other _ _ (by simp) (by simp) (by simp) (by simp)]
    rfl
  · rw [(input_mask_override_frame _).1]
    rfl

/-- C19 at a concrete state: hover gain 0 with a pitch error of 4500, aileron
300 and elevator -200: the tilt outputs keep their 1234, not 0, and the limit
flags stay cleared. -/
theorem hover_vectoring_disabled_witness :
    hoverGainZero.pitch_error_cd = 4500 ∧
    (tailsitter_output exact_arith id powf_integral hoverGainZero).srv .k_tiltMotorLeft = 1234 ∧
    (tailsitter_output exact_arith id powf_integral hoverGainZero).srv .k_tiltMotorRight = 1234 ∧
    (tailsitter_output exact_arith id powf_integral hoverGainZero).limit =
      { roll_pitch := false, yaw := false } := by
  have h := hover_vectoring_disabled exact_arith id powf_integral hoverGainZero (by decide) (by decide)
    (by norm_num [hoverGainZero, fwDeflected, fwState])
  refine ⟨?_, h.1.trans rfl, h.2.1.trans rfl, h.2.2.trans rfl⟩
  norm_num [pitch_error_cd, truncQ, hoverGainZero, fwDeflected, fwState]

/-- C20: when both attitude sources report the same roll and pitch, with
`|roll| <= 18000`, `tailsitter_transition_fw_complete()` implies
`tailsitter_transition_vtol_complete()`; the two are equal when
`|roll| <= 9000`; and the converse fails for some roll above 9000. -/
theorem fw_complete_imp_vtol_complete (s : QuadPlane) :
    (s.ahrs_view = s.ahrs → |s.ahrs.roll_sensor| ≤ 18000 →
      s.tailsitter_transition_fw_complete = true →
      s.tailsitter_transition_vtol_complete = true) ∧
    (s.ahrs_view = s.ahrs → |s.ahrs.roll_sensor| ≤ 9000 →
      s.tailsitter_transition_fw_complete = s.tailsitter_transition_vtol_complete) ∧
    (∃ t : QuadPlane, t.ahrs_view = t.ahrs ∧
      9000 < |t.ahrs.roll_sensor| ∧ |t.ahrs.roll_sensor| ≤ 18000 ∧
      t.tailsitter_transition_vtol_complete = true ∧
      t.tailsitter_transition_fw_complete = false) := by
  refine ⟨?_, ?_, ⟨bothRolled85, by decide⟩⟩
  · intro h _ hfw
    unfold tailsitter_transition_fw_complete at hfw
    unfold tailsitter_transition_vtol_complete
    rw [folded_roll_cd_eq, h] at hfw
    simp only [labs_eq_abs] at hfw ⊢
    cases hinv : s.fly_inverted
    · have hfw2 : |s.ahrs.pitch_sensor| > s.tailsitter.transition_angle * 100 ∨
          (if |s.ahrs.roll_sensor| ≤ 9000 then |s.ahrs.roll_sensor|
            else 18000 - |s.ahrs.roll_sensor|) > s.tailsitter.transition_angle * 100 ∨
          s.elapsed_ms > 2000 := by
        simpa [hinv] using hfw
      have goal : |s.ahrs.pitch_sensor| > s.tailsitter.transition_angle * 100 ∨
          |s.ahrs.roll_sensor| > s.tailsitter.transition_angle * 100 ∨
          s.elapsed_ms > 2000 := by
        rcases hfw2 with h1 | h2 | h3
        · exact Or.inl h1
        · refine Or.inr (Or.inl ?_)
          split_ifs at h2 with h9
          · exact h2
          · omega
        · exact Or.inr (Or.inr h3)
      simp [goal]
    · simp
  · intro h h9
    unfold tailsitter_transition_fw_complete tailsitter_transition_vtol_complete
    rw [folded_roll_cd_eq, h, if_pos h9]
    simp only [labs_eq_abs]

/-- C20 at concrete states: with both sources at roll -5000 and a transition
angle of 45 degrees both predicates are true; with both at roll 10000 and 85
degrees `vtol_complete` is true and `fw_complete` false. -/
theorem fw_complete_imp_vtol_complete_witness :
    (bothRolled45.tailsitter_transition_fw_complete = true ∧
      bothRolled45.tailsitter_transition_vtol_complete = true) ∧
    (bothRolled85.tailsitter_transition_vtol_complete = true ∧
      bothRolled85.tailsitter_transition_fw_complete = false) :=
  ⟨⟨by decide,
    (fw_complete_imp_vtol_complete bothRolled45).1 (by decide) (by decide) (by decide)⟩,
   by decide⟩
